import Mathlib

/-!
Verification of the `dind-router` plugin (`src/opencode/plugin/dind-router.ts`):
a tool-call interception router that redirects an AI coding agent's filesystem
and shell operations into a per-session container.

The TypeScript source is shallowly embedded here.  JavaScript strings are
modelled as `String` (with the heavy lifting done on `List Char`, the `data`
field), JS `Map`s and JSON objects as association lists, and every effectful
interaction (the OCI runtime, the session API of the agent framework, the
state file on disk) as an explicit parameter or oracle.  `node:path` is the
POSIX flavour (`path.sep = '/'`); `process.cwd()` is passed explicitly where
`path.resolve` could consult it.
-/

namespace DindRouter

/-! ## JavaScript string primitives

`jsSplitC sep s` is `s.split(sep)` for a one-character separator, on the
underlying character lists.  `joinSlash` is `parts.join('/')`. -/

/-- JS `s.split(sep)` on character lists (the separator is a single char). -/
def jsSplitC (sep : Char) (s : List Char) : List (List Char) :=
  s.splitOn sep

/-- JS `parts.join('/')` on character lists. -/
def joinSlash : List (List Char) → List Char
  | [] => []
  | [x] => x
  | x :: y :: r => x ++ '/' :: joinSlash (y :: r)

/-- JS `s.startsWith(pre)`. -/
def jsStartsWithC (s pre : List Char) : Bool :=
  pre.isPrefixOf s

theorem jsSplitC_ne_nil (sep : Char) (s : List Char) : jsSplitC sep s ≠ [] :=
  List.splitOnP_ne_nil _ s

/-- No piece produced by splitting on `sep` contains `sep`. -/
theorem not_mem_of_mem_jsSplitC (sep : Char) (s : List Char) :
    ∀ piece ∈ jsSplitC sep s, sep ∉ piece := by
  induction s with
  | nil =>
    intro piece hp
    simp [jsSplitC, List.splitOn] at hp
    simp [hp]
  | cons c s ih =>
    intro piece hp
    rw [jsSplitC, List.splitOn, List.splitOnP_cons] at hp
    by_cases hc : c = sep
    · rw [if_pos (by simp [hc])] at hp
      rcases List.mem_cons.mp hp with hp | hp
      · simp [hp]
      · exact ih piece hp
    · rw [if_neg (by simp [hc])] at hp
      rcases hsp : s.splitOnP (· == sep) with _ | ⟨h, t⟩
      · exact absurd hsp (List.splitOnP_ne_nil _ s)
      · rw [hsp] at hp
        simp only [List.modifyHead] at hp
        rcases List.mem_cons.mp hp with hp | hp
        · subst hp
          intro hmem
          rcases List.mem_cons.mp hmem with h1 | h1
          · exact hc h1.symm
          · exact ih h (by rw [jsSplitC, List.splitOn, hsp]; exact List.mem_cons_self _ _) h1
        · exact ih piece (by rw [jsSplitC, List.splitOn, hsp]; exact List.mem_cons_of_mem _ hp)

/-- Splitting a concatenation around an explicit separator splits both halves. -/
theorem jsSplitC_append_cons (sep : Char) (u v : List Char) :
    jsSplitC sep (u ++ sep :: v) = jsSplitC sep u ++ jsSplitC sep v := by
  induction u with
  | nil =>
    simp [jsSplitC, List.splitOn, List.splitOnP_cons]
  | cons c u ih =>
    show ((c :: u) ++ sep :: v).splitOn sep = (c :: u).splitOn sep ++ v.splitOn sep
    rw [List.cons_append, List.splitOn, List.splitOnP_cons, List.splitOn, List.splitOnP_cons]
    have ihe : (u ++ sep :: v).splitOnP (· == sep) = u.splitOnP (· == sep) ++ v.splitOnP (· == sep) := ih
    by_cases hc : c = sep
    · rw [if_pos (by simp [hc]), if_pos (by simp [hc]), ihe]
      rfl
    · rw [if_neg (by simp [hc]), if_neg (by simp [hc]), ihe]
      rcases hsp : u.splitOnP (· == sep) with _ | ⟨h, t⟩
      · exact absurd hsp (List.splitOnP_ne_nil _ u)
      · simp [hsp, List.modifyHead, List.splitOn]

/-- Splitting `parts.join('/')` recovers the parts when none contains `'/'`. -/
theorem jsSplitC_joinSlash (l : List (List Char)) (hne : l ≠ [])
    (hsl : ∀ piece ∈ l, ('/' : Char) ∉ piece) :
    jsSplitC '/' (joinSlash l) = l := by
  induction l with
  | nil => exact absurd rfl hne
  | cons x r ih =>
    rcases r with _ | ⟨y, r⟩
    · show (joinSlash [x]).splitOn '/' = [x]
      simp only [joinSlash]
      exact List.splitOnP_eq_single _ _
        (fun a ha hb => hsl x (List.mem_singleton_self x) (by rw [eq_of_beq hb] at ha; exact ha))
    · show (joinSlash (x :: y :: r)).splitOn '/' = x :: y :: r
      simp only [joinSlash]
      have hx : ∀ a ∈ x, ¬(a == '/') = true := fun a ha hb =>
        hsl x (List.mem_cons_self _ _) (by rw [eq_of_beq hb] at ha; exact ha)
      have := List.splitOnP_first (· == '/') x hx '/' (by simp) (joinSlash (y :: r))
      rw [List.splitOn, this]
      have := ih (by simp) (fun p hp => hsl p (List.mem_cons_of_mem _ hp))
      rw [jsSplitC, List.splitOn] at this
      rw [this]

theorem joinSlash_ne_nil {l : List (List Char)} (hne : l ≠ [])
    (hgood : ∀ piece ∈ l, piece ≠ []) : joinSlash l ≠ [] := by
  rcases l with _ | ⟨x, r⟩
  · exact absurd rfl hne
  · rcases r with _ | ⟨y, r⟩
    · exact hgood x (List.mem_singleton_self x)
    · show x ++ '/' :: joinSlash (y :: r) ≠ []
      simp

theorem joinSlash_cons_cons (x : List Char) {r : List (List Char)} (hr : r ≠ []) :
    joinSlash (x :: r) = x ++ '/' :: joinSlash r := by
  rcases r with _ | ⟨y, r⟩
  · exact absurd rfl hr
  · rfl

/-- Joining two non-empty component lists concatenates around a slash. -/
theorem joinSlash_append {a b : List (List Char)} (ha : a ≠ []) (hb : b ≠ []) :
    joinSlash (a ++ b) = joinSlash a ++ '/' :: joinSlash b := by
  induction a with
  | nil => exact absurd rfl ha
  | cons x r ih =>
    rcases r with _ | ⟨y, r⟩
    · rw [List.singleton_append, joinSlash_cons_cons x hb]
      rfl
    · rw [List.cons_append, joinSlash_cons_cons x (by simp),
        joinSlash_cons_cons x (r := y :: r) (by simp), ih (by simp)]
      simp

/-! ## `node:path` (POSIX) component normalization

`normAbsAcc` is Node's `normalizeString` with `allowAboveRoot = false`
(absolute paths): empty and `.` components are dropped, `..` pops the last
kept component (and is dropped at the root).  `normRelAcc` is the
`allowAboveRoot = true` variant used for relative paths.  The accumulator
holds the kept components in reverse order. -/

def normAbsAcc : List (List Char) → List (List Char) → List (List Char)
  | acc, [] => acc
  | acc, t :: ts =>
    if t = [] ∨ t = ['.'] then normAbsAcc acc ts
    else if t = ['.', '.'] then normAbsAcc acc.tail ts
    else normAbsAcc (t :: acc) ts

def normRelAcc : List (List Char) → List (List Char) → List (List Char)
  | acc, [] => acc
  | acc, t :: ts =>
    if t = [] ∨ t = ['.'] then normRelAcc acc ts
    else if t = ['.', '.'] then
      match acc with
      | [] => normRelAcc [['.', '.']] ts
      | a :: rest =>
        if a = ['.', '.'] then normRelAcc (['.', '.'] :: a :: rest) ts
        else normRelAcc rest ts
    else normRelAcc (t :: acc) ts

/-- Normalized components of an absolute path's split. -/
def normAbsC (ts : List (List Char)) : List (List Char) :=
  (normAbsAcc [] ts).reverse

/-- A clean path component: non-empty, not a dot entry, and slash-free. -/
def goodComp (c : List Char) : Prop :=
  c ≠ [] ∧ c ≠ ['.'] ∧ c ≠ ['.', '.'] ∧ ('/' : Char) ∉ c

instance (c : List Char) : Decidable (goodComp c) := by
  unfold goodComp; infer_instance

theorem normAbsAcc_append (acc : List (List Char)) (xs ys : List (List Char)) :
    normAbsAcc acc (xs ++ ys) = normAbsAcc (normAbsAcc acc xs) ys := by
  induction xs generalizing acc with
  | nil => rfl
  | cons t ts ih =>
    rw [List.cons_append, normAbsAcc, normAbsAcc]
    by_cases h1 : t = [] ∨ t = ['.']
    · rw [if_pos h1, if_pos h1, ih]
    · rw [if_neg h1, if_neg h1]
      by_cases h2 : t = ['.', '.']
      · rw [if_pos h2, if_pos h2, ih]
      · rw [if_neg h2, if_neg h2, ih]

/-- Good components pass through the normalizer, each being pushed. -/
theorem normAbsAcc_good (acc : List (List Char)) (xs : List (List Char))
    (hxs : ∀ c ∈ xs, goodComp c) :
    normAbsAcc acc xs = xs.reverse ++ acc := by
  induction xs generalizing acc with
  | nil => rfl
  | cons t ts ih =>
    have hg := hxs t (List.mem_cons_self _ _)
    rw [normAbsAcc, if_neg (fun h => h.elim hg.1 hg.2.1),
      if_neg hg.2.2.1, ih (t :: acc) (fun c hc => hxs c (List.mem_cons_of_mem _ hc))]
    simp

/-- Every component kept by the normalizer came from the input or the
initial accumulator, and (if from the input) is neither empty nor a dot
entry. -/
theorem mem_normAbsAcc (acc xs : List (List Char)) :
    ∀ c ∈ normAbsAcc acc xs,
      c ∈ acc ∨ (c ∈ xs ∧ c ≠ [] ∧ c ≠ ['.'] ∧ c ≠ ['.', '.']) := by
  induction xs generalizing acc with
  | nil =>
    intro c hc
    exact Or.inl hc
  | cons t ts ih =>
    intro c hc
    rw [normAbsAcc] at hc
    by_cases h1 : t = [] ∨ t = ['.']
    · rw [if_pos h1] at hc
      rcases ih acc c hc with h | h
      · exact Or.inl h
      · exact Or.inr ⟨List.mem_cons_of_mem _ h.1, h.2⟩
    · rw [if_neg h1] at hc
      by_cases h2 : t = ['.', '.']
      · rw [if_pos h2] at hc
        rcases ih acc.tail c hc with h | h
        · exact Or.inl (List.mem_of_mem_tail h)
        · exact Or.inr ⟨List.mem_cons_of_mem _ h.1, h.2⟩
      · rw [if_neg h2] at hc
        rcases ih (t :: acc) c hc with h | h
        · rcases List.mem_cons.mp h with h | h
          · subst h
            exact Or.inr ⟨List.mem_cons_self _ _,
              fun he => h1 (Or.inl he), fun he => h1 (Or.inr he), h2⟩
          · exact Or.inl h
        · exact Or.inr ⟨List.mem_cons_of_mem _ h.1, h.2⟩

/-- Components normalized out of a slash-split are all good. -/
theorem goodComp_of_mem_normAbsC (s : List Char) :
    ∀ c ∈ normAbsC (jsSplitC '/' s), goodComp c := by
  intro c hc
  rw [normAbsC, List.mem_reverse] at hc
  rcases mem_normAbsAcc [] (jsSplitC '/' s) c hc with h | h
  · exact absurd h (List.not_mem_nil c)
  · exact ⟨h.2.1, h.2.2.1, h.2.2.2, not_mem_of_mem_jsSplitC '/' s c h.1⟩

/-! ## `node:path` (POSIX) operations on character lists -/

/-- `path.posix.isAbsolute`. -/
def isAbsoluteC (s : List Char) : Bool :=
  match s with
  | c :: _ => c = '/'
  | [] => false

/-- `path.posix.resolve` applied to a single absolute argument (callers pass
`process.cwd()`-anchored strings for relative inputs). -/
def resolveAbsC (s : List Char) : List Char :=
  '/' :: joinSlash (normAbsC (jsSplitC '/' s))

/-- `path.posix.resolve(base, s)` where `base` is already absolute. -/
def resolveWithBaseC (base s : List Char) : List Char :=
  if isAbsoluteC s then resolveAbsC s else resolveAbsC (base ++ '/' :: s)

/-- `path.posix.resolve(s)` with `process.cwd()` passed explicitly. -/
def resolveCwdC (cwd s : List Char) : List Char :=
  if isAbsoluteC s then resolveAbsC s else resolveAbsC (cwd ++ '/' :: s)

/-- Node's `normalizeString` output, joined: the slash-join of the
normalized components (`allowAboveRoot` follows absoluteness). -/
def normalizedCore (s : List Char) : List Char :=
  joinSlash (if isAbsoluteC s then normAbsC (jsSplitC '/' s)
    else (normRelAcc [] (jsSplitC '/' s)).reverse)

/-- The empty-to-dot substitution Node applies to relative results. -/
def relAdjusted (s : List Char) : List Char :=
  if normalizedCore s = [] then ['.'] else normalizedCore s

/-- `path.posix.normalize`. -/
def pathNormalizeC (s : List Char) : List Char :=
  if s = [] then ['.']
  else if isAbsoluteC s then
    '/' :: (if normalizedCore s ≠ [] ∧ s.getLast? = some '/'
      then normalizedCore s ++ ['/'] else normalizedCore s)
  else
    if relAdjusted s ≠ [] ∧ s.getLast? = some '/'
      then relAdjusted s ++ ['/'] else relAdjusted s

/-- `path.posix.join(a, b)`. -/
def pathJoinC (a b : List Char) : List Char :=
  if a = [] then (if b = [] then ['.'] else pathNormalizeC b)
  else if b = [] then pathNormalizeC a
  else pathNormalizeC (a ++ '/' :: b)

/-- Component-level core of `path.posix.relative`: drop the common prefix,
then go up once per remaining source component. -/
def relCompsC : List (List Char) → List (List Char) → List (List Char)
  | [], ts => ts
  | fs, [] => List.replicate fs.length ['.', '.']
  | f :: fs, t :: ts =>
    if f = t then relCompsC fs ts
    else List.replicate (fs.length + 1) ['.', '.'] ++ t :: ts

/-- `path.posix.relative(f, t)` (both arguments are resolved first, as in
Node). -/
def pathRelativeC (f t : List Char) : List Char :=
  joinSlash (relCompsC (normAbsC (jsSplitC '/' (resolveAbsC f)))
    (normAbsC (jsSplitC '/' (resolveAbsC t))))

/-- Splitting a resolved path gives a leading empty piece and its normalized
components back (with root resolving to two empty pieces). -/
theorem jsSplitC_resolveAbsC (s : List Char) :
    jsSplitC '/' (resolveAbsC s) =
      [] :: (if normAbsC (jsSplitC '/' s) = [] then [[]]
        else normAbsC (jsSplitC '/' s)) := by
  rw [resolveAbsC]
  have h0 : jsSplitC '/' ('/' :: joinSlash (normAbsC (jsSplitC '/' s))) =
      jsSplitC '/' ([] ++ '/' :: joinSlash (normAbsC (jsSplitC '/' s))) := rfl
  rw [h0, jsSplitC_append_cons]
  rcases hm : normAbsC (jsSplitC '/' s) with _ | ⟨x, r⟩
  · decide
  · rw [if_neg (by simp), jsSplitC_joinSlash (x :: r) (by simp)
      (fun p hp => (goodComp_of_mem_normAbsC s p (hm ▸ hp)).2.2.2)]
    rfl

/-- Re-normalizing the components of a resolved path is the identity. -/
theorem normAbsC_resolveAbsC (s : List Char) :
    normAbsC (jsSplitC '/' (resolveAbsC s)) = normAbsC (jsSplitC '/' s) := by
  rw [jsSplitC_resolveAbsC]
  by_cases h : normAbsC (jsSplitC '/' s) = []
  · rw [if_pos h, h]
    rfl
  · rw [if_neg h, normAbsC, normAbsAcc, if_pos (Or.inl rfl),
      normAbsAcc_good [] _ (fun c hc => goodComp_of_mem_normAbsC s c hc),
      List.append_nil, List.reverse_reverse, normAbsC]

/-- `resolve` is idempotent. -/
theorem resolveAbsC_idem (s : List Char) :
    resolveAbsC (resolveAbsC s) = resolveAbsC s := by
  rw [resolveAbsC, normAbsC_resolveAbsC, resolveAbsC]

/-- The last character of a join of good components is never a slash. -/
theorem getLast?_joinSlash {l : List (List Char)} (hne : l ≠ [])
    (hgood : ∀ c ∈ l, goodComp c) : (joinSlash l).getLast? ≠ some '/' := by
  induction l with
  | nil => exact absurd rfl hne
  | cons x r ih =>
    rcases r with _ | ⟨y, r⟩
    · show x.getLast? ≠ some '/'
      intro h
      have hmem : ('/' : Char) ∈ x.getLast? := by rw [h]; rfl
      rcases List.mem_getLast?_eq_getLast hmem with ⟨hne2, heq⟩
      exact (hgood x (List.mem_singleton_self x)).2.2.2 (heq ▸ List.getLast_mem hne2)
    · have hyne : joinSlash (y :: r) ≠ [] :=
        joinSlash_ne_nil (by simp) (fun p hp => (hgood p (List.mem_cons_of_mem _ hp)).1)
      rw [joinSlash_cons_cons x (by simp), List.getLast?_append_cons]
      rcases hJ : joinSlash (y :: r) with _ | ⟨c, J⟩
      · exact absurd hJ hyne
      · rw [List.getLast?_cons_cons]
        have hrec := ih (by simp) (fun c hc => hgood c (List.mem_cons_of_mem _ hc))
        rw [hJ] at hrec
        exact hrec

/-- Normalized components of a character-list path. -/
def compsR (s : List Char) : List (List Char) :=
  normAbsC (jsSplitC '/' s)

theorem resolveAbsC_eq (s : List Char) :
    resolveAbsC s = '/' :: joinSlash (compsR s) := rfl

/-- Matching a slash-delimited prefix of slash-free heads forces the heads to
agree. -/
theorem prefix_slash_align :
    ∀ {a b u v : List Char}, ('/' : Char) ∉ a → ('/' : Char) ∉ b →
      a ++ '/' :: u <+: b ++ '/' :: v → a = b ∧ u <+: v := by
  intro a
  induction a with
  | nil =>
    intro b u v _ hb h
    rcases b with _ | ⟨d, b⟩
    · exact ⟨rfl, (List.cons_prefix_cons.mp h).2⟩
    · rcases List.cons_prefix_cons.mp h with ⟨h1, _⟩
      exact absurd (h1 ▸ List.mem_cons_self d b) hb
  | cons c a ih =>
    intro b u v ha hb h
    rcases b with _ | ⟨d, b⟩
    · rcases List.cons_prefix_cons.mp h with ⟨h1, _⟩
      exact absurd (h1 ▸ List.mem_cons_self c a) ha
    · rcases List.cons_prefix_cons.mp h with ⟨h1, h2⟩
      rcases ih (fun hm => ha (List.mem_cons_of_mem _ hm))
        (fun hm => hb (List.mem_cons_of_mem _ hm)) h2 with ⟨h3, h4⟩
      exact ⟨by rw [h1, h3], h4⟩

theorem slash_mem_of_prefix {a b : List Char} (hpre : a ++ '/' :: b <+: c) :
    ('/' : Char) ∈ c := by
  rcases hpre with ⟨t, ht⟩
  rw [← ht]
  exact List.mem_append.mpr (Or.inl (List.mem_append.mpr (Or.inr (List.mem_cons_self _ _))))

/-- A strict slash-prefix between joins of good components is a strict
list-prefix of components. -/
theorem comps_of_slash_prefix :
    ∀ {hm rm : List (List Char)}, (∀ c ∈ hm, goodComp c) → (∀ c ∈ rm, goodComp c) →
      joinSlash hm ++ ['/'] <+: joinSlash rm → ∃ k, k ≠ [] ∧ rm = hm ++ k := by
  intro hm
  induction hm with
  | nil =>
    intro rm _ hrm h
    rcases rm with _ | ⟨x, r⟩
    · rcases h with ⟨t, ht⟩
      simp [joinSlash] at ht
    · exfalso
      have hx := hrm x (List.mem_cons_self _ _)
      rcases h with ⟨t, ht⟩
      rcases r with _ | ⟨y, r⟩
      · rcases x with _ | ⟨c, x⟩
        · exact hx.1 rfl
        · have : c = '/' := by
            have := congrArg (List.head? ·) ht
            simpa [joinSlash] using this.symm
          exact hx.2.2.2 (this ▸ List.mem_cons_self c x)
      · rw [joinSlash_cons_cons x (by simp)] at ht
        rcases x with _ | ⟨c, x⟩
        · exact hx.1 rfl
        · have : c = '/' := by
            have := congrArg (List.head? ·) ht
            simpa [joinSlash] using this.symm
          exact hx.2.2.2 (this ▸ List.mem_cons_self c x)
  | cons a hm ih =>
    intro rm hhm hrm h
    have hga := hhm a (List.mem_cons_self _ _)
    rcases rm with _ | ⟨b, rm⟩
    · rcases h with ⟨t, ht⟩
      simp [joinSlash] at ht
    · have hgb := hrm b (List.mem_cons_self _ _)
      rcases hm with _ | ⟨y, hm'⟩
      · -- source components exhausted after `a`
        rcases rm with _ | ⟨z, rm'⟩
        · exfalso
          have : ('/' : Char) ∈ b := by
            have h2 : a ++ '/' :: ([] : List Char) <+: joinSlash [b] := by
              simpa [joinSlash] using h
            exact slash_mem_of_prefix (c := joinSlash [b]) h2
          exact hgb.2.2.2 this
        · have h2 : a ++ '/' :: ([] : List Char) <+:
              b ++ '/' :: joinSlash (z :: rm') := by
            rw [joinSlash_cons_cons b (by simp)] at h
            simpa [joinSlash] using h
          rcases prefix_slash_align hga.2.2.2 hgb.2.2.2 h2 with ⟨hab, _⟩
          exact ⟨z :: rm', by simp, by rw [hab]; simp⟩
      · -- both sides still have components
        rcases rm with _ | ⟨z, rm'⟩
        · exfalso
          have h2 : a ++ '/' :: (joinSlash (y :: hm') ++ ['/']) <+: joinSlash [b] := by
            rw [joinSlash_cons_cons a (by simp)] at h
            simpa using h
          have : ('/' : Char) ∈ joinSlash [b] := slash_mem_of_prefix h2
          exact hgb.2.2.2 (by simpa [joinSlash] using this)
        · have h2 : a ++ '/' :: (joinSlash (y :: hm') ++ ['/']) <+:
              b ++ '/' :: joinSlash (z :: rm') := by
            rw [joinSlash_cons_cons a (by simp), joinSlash_cons_cons b (by simp)] at h
            simpa using h
          rcases prefix_slash_align hga.2.2.2 hgb.2.2.2 h2 with ⟨hab, h3⟩
          rcases ih (fun c hc => hhm c (List.mem_cons_of_mem _ hc))
            (fun c hc => hrm c (List.mem_cons_of_mem _ hc)) h3 with ⟨k, hk, hrk⟩
          exact ⟨k, hk, by rw [hab, hrk]; rfl⟩

/-- Dropping a common prefix of components leaves the suffix. -/
theorem relCompsC_append (hm k : List (List Char)) :
    relCompsC hm (hm ++ k) = k := by
  induction hm with
  | nil =>
    rw [List.nil_append]
    cases k <;> rfl
  | cons a hm ih =>
    show relCompsC (a :: hm) (a :: (hm ++ k)) = k
    rw [relCompsC, if_pos rfl, ih]

theorem isAbsoluteC_resolveAbsC (s : List Char) :
    isAbsoluteC (resolveAbsC s) = true := rfl

/-- Normalizing `a ++ "/" ++ join k` for an absolute `a` and good components
`k` appends the components. -/
theorem pathNormalizeC_abs_append {a : List Char} (ha : isAbsoluteC a = true)
    {k : List (List Char)} (hk : k ≠ []) (hgood : ∀ c ∈ k, goodComp c) :
    pathNormalizeC (a ++ '/' :: joinSlash k) = '/' :: joinSlash (compsR a ++ k) := by
  rcases a with _ | ⟨c, a'⟩
  · exact absurd ha (by decide)
  · have hc : c = '/' := of_decide_eq_true ha
    subst hc
    have hjne : joinSlash k ≠ [] := joinSlash_ne_nil hk (fun p hp => (hgood p hp).1)
    have habs : isAbsoluteC (('/' :: a') ++ '/' :: joinSlash k) = true := rfl
    have hcore : normalizedCore (('/' :: a') ++ '/' :: joinSlash k) =
        joinSlash (compsR ('/' :: a') ++ k) := by
      rw [normalizedCore, habs, if_pos rfl, jsSplitC_append_cons,
        jsSplitC_joinSlash k hk (fun p hp => (hgood p hp).2.2.2),
        normAbsC, normAbsAcc_append, normAbsAcc_good _ _ hgood,
        List.reverse_append, List.reverse_reverse, compsR, normAbsC]
    have hlast : (('/' :: a') ++ '/' :: joinSlash k).getLast? ≠ some '/' := by
      rw [List.getLast?_append_cons]
      rcases hJ : joinSlash k with _ | ⟨d, J⟩
      · exact absurd hJ hjne
      · rw [List.getLast?_cons_cons]
        have hgl := getLast?_joinSlash hk hgood
        rw [hJ] at hgl
        exact hgl
    rw [pathNormalizeC, if_neg (by simp), habs, if_pos rfl, hcore,
      if_neg (fun hand => hlast hand.2)]

/-- `normalize` fixes any resolved path. -/
theorem pathNormalizeC_resolveAbsC (s : List Char) :
    pathNormalizeC (resolveAbsC s) = resolveAbsC s := by
  have hne : resolveAbsC s ≠ [] := by rw [resolveAbsC_eq]; simp
  have hcore : normalizedCore (resolveAbsC s) = joinSlash (compsR s) := by
    rw [normalizedCore, isAbsoluteC_resolveAbsC, if_pos rfl, normAbsC_resolveAbsC]
    rfl
  rw [pathNormalizeC, if_neg hne, isAbsoluteC_resolveAbsC, if_pos rfl, hcore]
  rcases hm : compsR s with _ | ⟨x, r⟩
  · rw [if_neg (by simp [joinSlash]), resolveAbsC_eq, hm]
  · have hgood : ∀ c ∈ x :: r, goodComp c := fun c hc =>
      goodComp_of_mem_normAbsC s c (by rw [← compsR, hm]; exact hc)
    have hlast : (resolveAbsC s).getLast? ≠ some '/' := by
      rw [resolveAbsC_eq, hm]
      rcases hJ : joinSlash (x :: r) with _ | ⟨d, J⟩
      · exact absurd hJ (joinSlash_ne_nil (by simp) (fun p hp => (hgood p hp).1))
      · rw [List.getLast?_cons_cons]
        have hgl := getLast?_joinSlash (l := x :: r) (by simp) hgood
        rw [hJ] at hgl
        exact hgl
    rw [if_neg (fun hand => hlast hand.2), resolveAbsC_eq, hm]

/-! ## Path mapping (`mapHostPathToContainer`, `mapContainerPathToHost`,
`resolveHostPathInProject`)

Straight translations of the three path functions of `dind-router.ts`.
`cwd` models `process.cwd()`, consulted by `path.resolve` only when the
respective root is relative. -/

/-- JS `x || dflt` for strings (used for the `safeContainerRoot` defaults). -/
def safeRootC (r dflt : List Char) : List Char :=
  if r = [] then dflt else r

/-- `path.resolve(root)` / `path.resolve(resolve(root), p)` as used by all
three functions: resolve the target against the normalized root. -/
def resolvedHostC (cwd hostPath hostRoot : List Char) : List Char :=
  if isAbsoluteC hostPath then resolveAbsC hostPath
  else resolveWithBaseC (resolveCwdC cwd hostRoot) hostPath

/-- `mapHostPathToContainer` (dind-router.ts, lines 143-174). -/
def mapHostToContC (cwd hostPath hostRoot containerRoot : List Char) : List Char :=
  if hostRoot = [] then safeRootC containerRoot ['/']
  else if hostPath = [] then safeRootC containerRoot ['/']
  else if resolvedHostC cwd hostPath hostRoot ≠ resolveCwdC cwd hostRoot ∧
      ¬ jsStartsWithC (resolvedHostC cwd hostPath hostRoot)
        (resolveCwdC cwd hostRoot ++ ['/']) then
    safeRootC containerRoot ['/']
  else
    pathJoinC (safeRootC containerRoot ['/'])
      (pathRelativeC (resolveCwdC cwd hostRoot) (resolvedHostC cwd hostPath hostRoot))

/-- `mapContainerPathToHost` (dind-router.ts, lines 179-210). -/
def mapContToHostC (cwd containerPath hostRoot containerRoot : List Char) : List Char :=
  if hostRoot = [] then containerPath
  else if containerPath = [] then hostRoot
  else if resolvedHostC cwd containerPath (safeRootC containerRoot ['/']) ≠
        resolveCwdC cwd (safeRootC containerRoot ['/']) ∧
      ¬ jsStartsWithC (resolvedHostC cwd containerPath (safeRootC containerRoot ['/']))
        (resolveCwdC cwd (safeRootC containerRoot ['/']) ++ ['/']) then
    hostRoot
  else
    pathJoinC hostRoot
      (pathRelativeC (resolveCwdC cwd (safeRootC containerRoot ['/']))
        (resolvedHostC cwd containerPath (safeRootC containerRoot ['/'])))

/-- `resolveHostPathInProject` (dind-router.ts, lines 316-337): `none` when
the target escapes the project root. -/
def resolveHostPathInProjectC (cwd projectRoot targetPath : List Char) :
    Option (List Char) :=
  if projectRoot = [] then none
  else if targetPath = [] then none
  else if resolvedHostC cwd targetPath projectRoot ≠ resolveCwdC cwd projectRoot ∧
      ¬ jsStartsWithC (resolvedHostC cwd targetPath projectRoot)
        (resolveCwdC cwd projectRoot ++ ['/']) then
    none
  else some (resolvedHostC cwd targetPath projectRoot)

/-- String-level `mapHostPathToContainer`. -/
def mapHostPathToContainer (cwd hostPath hostRoot containerRoot : String) : String :=
  ⟨mapHostToContC cwd.data hostPath.data hostRoot.data containerRoot.data⟩

/-- String-level `mapContainerPathToHost`. -/
def mapContainerPathToHost (cwd containerPath hostRoot containerRoot : String) : String :=
  ⟨mapContToHostC cwd.data containerPath.data hostRoot.data containerRoot.data⟩

/-- String-level `resolveHostPathInProject`. -/
def resolveHostPathInProject (cwd projectRoot targetPath : String) : Option String :=
  (resolveHostPathInProjectC cwd.data projectRoot.data targetPath.data).map
    (fun l => ⟨l⟩)

-- Sanity anchors: the unit tests of `dind-router.test.ts`.
example : mapHostPathToContainer "" "/repo/packages/app" "/repo" "/workspace" =
    "/workspace/packages/app" := by decide
example : mapHostPathToContainer "" "packages/app" "/repo" "/workspace" =
    "/workspace/packages/app" := by decide
example : mapHostPathToContainer "" "/outside" "/repo" "/workspace" =
    "/workspace" := by decide
example : mapHostPathToContainer "" "packages/app" "" "/workspace" =
    "/workspace" := by decide
example : mapContainerPathToHost "" "/workspace/packages/app" "/repo" "/workspace" =
    "/repo/packages/app" := by decide
example : mapContainerPathToHost "" "packages/app" "/repo" "/workspace" =
    "/repo/packages/app" := by decide
example : mapContainerPathToHost "" "/outside" "/repo" "/workspace" =
    "/repo" := by decide

/-! ## Structure lemmas for the path mapper -/

theorem goodComp_compsR (s : List Char) : ∀ c ∈ compsR s, goodComp c :=
  goodComp_of_mem_normAbsC s

theorem isAbsoluteC_of_resolved {s : List Char} (h : s = resolveAbsC s) :
    isAbsoluteC s = true := by
  rw [h]
  exact isAbsoluteC_resolveAbsC _

theorem ne_nil_of_resolved {s : List Char} (h : s = resolveAbsC s) : s ≠ [] := by
  rw [h, resolveAbsC_eq]
  simp

/-- The components of `'/' :: join m` are `m`, for good `m`. -/
theorem compsR_slash_join {m : List (List Char)} (hgood : ∀ c ∈ m, goodComp c) :
    compsR ('/' :: joinSlash m) = m := by
  rcases m with _ | ⟨x, r⟩
  · decide
  · have h0 : ('/' : Char) :: joinSlash (x :: r) = [] ++ '/' :: joinSlash (x :: r) := rfl
    rw [compsR, h0, jsSplitC_append_cons,
      jsSplitC_joinSlash (x :: r) (by simp) (fun p hp => (hgood p hp).2.2.2)]
    show normAbsC (([] :: []) ++ x :: r) = x :: r
    rw [normAbsC, normAbsAcc_append]
    rw [show normAbsAcc [] [[]] = [] from rfl, normAbsAcc_good [] _ hgood]
    simp

theorem resolveAbsC_slash_join {m : List (List Char)} (hgood : ∀ c ∈ m, goodComp c) :
    resolveAbsC ('/' :: joinSlash m) = '/' :: joinSlash m := by
  rw [resolveAbsC_eq, compsR_slash_join hgood]

/-- `resolvedHostC` always produces a `resolve`d path. -/
theorem resolvedHostC_shape (cwd p r : List Char) :
    ∃ u, resolvedHostC cwd p r = resolveAbsC u := by
  rw [resolvedHostC]
  by_cases h : isAbsoluteC p = true
  · exact ⟨p, by rw [if_pos h]⟩
  · rw [if_neg h, resolveWithBaseC]
    by_cases h2 : isAbsoluteC p = true
    · exact absurd h2 h
    · exact ⟨_, by rw [if_neg h2]⟩

/-- A strict slash-prefix between resolved paths decomposes the components. -/
theorem comps_decomp_of_startsWith {x y : List Char}
    (h : jsStartsWithC (resolveAbsC y) (resolveAbsC x ++ ['/']) = true) :
    ∃ k, k ≠ [] ∧ compsR y = compsR x ++ k := by
  rw [jsStartsWithC] at h
  have hpre := List.isPrefixOf_iff_prefix.mp h
  rw [resolveAbsC_eq, resolveAbsC_eq, List.cons_append] at hpre
  have h2 := (List.cons_prefix_cons.mp hpre).2
  exact comps_of_slash_prefix (goodComp_compsR x) (goodComp_compsR y) h2

theorem pathRelativeC_resolved (x y : List Char) :
    pathRelativeC (resolveAbsC x) (resolveAbsC y) =
      joinSlash (relCompsC (compsR x) (compsR y)) := by
  rw [pathRelativeC, resolveAbsC_idem, resolveAbsC_idem,
    normAbsC_resolveAbsC, normAbsC_resolveAbsC]
  rfl

theorem pathRelativeC_of_resolved {f t : List Char} (hf : f = resolveAbsC f)
    (ht : t = resolveAbsC t) :
    pathRelativeC f t = joinSlash (relCompsC (compsR f) (compsR t)) := by
  conv_lhs => rw [hf, ht]
  rw [pathRelativeC_resolved]

theorem pathJoinC_abs_join {a : List Char} (ha : isAbsoluteC a = true)
    {k : List (List Char)} (hk : k ≠ []) (hgood : ∀ c ∈ k, goodComp c) :
    pathJoinC a (joinSlash k) = '/' :: joinSlash (compsR a ++ k) := by
  have hane : a ≠ [] := fun h => by rw [h] at ha; exact absurd ha (by decide)
  rw [pathJoinC, if_neg hane,
    if_neg (joinSlash_ne_nil hk (fun p hp => (hgood p hp).1)),
    pathNormalizeC_abs_append ha hk hgood]

theorem pathJoinC_nil_right {a : List Char} (hane : a ≠ []) :
    pathJoinC a [] = pathNormalizeC a := by
  rw [pathJoinC, if_neg hane, if_pos rfl]

/-- Shape of every `mapHostPathToContainer` result for a normalized absolute
container root: the root itself, or the root extended by good components. -/
theorem mapHostToContC_shape (cwd p H C : List Char)
    (hH : isAbsoluteC H = true) (hC : C = resolveAbsC C) :
    mapHostToContC cwd p H C = C ∨
      ∃ k, k ≠ [] ∧ (∀ c ∈ k, goodComp c) ∧
        mapHostToContC cwd p H C = '/' :: joinSlash (compsR C ++ k) := by
  have hCne : C ≠ [] := ne_nil_of_resolved hC
  have hHne : H ≠ [] := fun h => by rw [h] at hH; exact absurd hH (by decide)
  have hsafe : safeRootC C ['/'] = C := if_neg hCne
  have hNRr : resolveCwdC cwd H = resolveAbsC H := by rw [resolveCwdC, if_pos hH]
  rw [mapHostToContC, if_neg hHne]
  by_cases hp : p = []
  · rw [if_pos hp, hsafe]
    exact Or.inl rfl
  rw [if_neg hp]
  by_cases hcl : resolvedHostC cwd p H ≠ resolveCwdC cwd H ∧
      ¬ jsStartsWithC (resolvedHostC cwd p H) (resolveCwdC cwd H ++ ['/'])
  · rw [if_pos hcl, hsafe]
    exact Or.inl rfl
  · rw [if_neg hcl]
    rcases resolvedHostC_shape cwd p H with ⟨u, hu⟩
    by_cases heq : resolvedHostC cwd p H = resolveCwdC cwd H
    · have hrel : pathRelativeC (resolveCwdC cwd H) (resolvedHostC cwd p H) = [] := by
        rw [heq, hNRr, pathRelativeC_resolved]
        have h2 := relCompsC_append (compsR H) []
        rw [List.append_nil] at h2
        rw [h2]
        rfl
      rw [hrel, hsafe, pathJoinC_nil_right hCne]
      left
      rw [hC, pathNormalizeC_resolveAbsC]
    · have hsw : jsStartsWithC (resolvedHostC cwd p H) (resolveCwdC cwd H ++ ['/']) = true := by
        by_contra hsw
        exact hcl ⟨heq, hsw⟩
      rw [hu, hNRr] at hsw
      rcases @comps_decomp_of_startsWith H u hsw with ⟨k, hk, hku⟩
      have hgoodk : ∀ c ∈ k, goodComp c := fun c hc =>
        goodComp_compsR u c (by rw [hku]; exact List.mem_append_right _ hc)
      right
      refine ⟨k, hk, hgoodk, ?_⟩
      have hrel : pathRelativeC (resolveCwdC cwd H) (resolvedHostC cwd p H) =
          joinSlash k := by
        rw [hu, hNRr, pathRelativeC_resolved, hku, relCompsC_append]
      rw [hrel, hsafe, pathJoinC_abs_join (isAbsoluteC_of_resolved hC) hk hgoodk]

/-- Round trip: mapping a normalized path strictly inside the project into
the container and back is the identity (container root not `/`). -/
theorem map_roundtrip_data (cwd p H C : List Char)
    (hH : isAbsoluteC H = true) (hC : C = resolveAbsC C) (hCroot : C ≠ ['/'])
    (hp : p = resolveAbsC p)
    (hin : jsStartsWithC p (resolveAbsC H ++ ['/']) = true) :
    mapContToHostC cwd (mapHostToContC cwd p H C) H C = p := by
  have hCne : C ≠ [] := ne_nil_of_resolved hC
  have hHne : H ≠ [] := fun h => by rw [h] at hH; exact absurd hH (by decide)
  have hpne : p ≠ [] := ne_nil_of_resolved hp
  have hpabs : isAbsoluteC p = true := isAbsoluteC_of_resolved hp
  have hsafe : safeRootC C ['/'] = C := if_neg hCne
  have hNR : resolveCwdC cwd H = resolveAbsC H := by rw [resolveCwdC, if_pos hH]
  have hRH : resolvedHostC cwd p H = p := by
    rw [resolvedHostC, if_pos hpabs, ← hp]
  have hinr : jsStartsWithC (resolveAbsC p) (resolveAbsC H ++ ['/']) = true := by
    rw [← hp]
    exact hin
  rcases @comps_decomp_of_startsWith H p hinr with ⟨k, hk, hpk⟩
  have hgoodk : ∀ c ∈ k, goodComp c := fun c hc =>
    goodComp_compsR p c (by rw [hpk]; exact List.mem_append_right _ hc)
  have hgoodcmk : ∀ c ∈ compsR C ++ k, goodComp c := by
    intro c hc
    rcases List.mem_append.mp hc with h | h
    · exact goodComp_compsR C c h
    · exact hgoodk c h
  have hncl : ¬(resolvedHostC cwd p H ≠ resolveCwdC cwd H ∧
      ¬ jsStartsWithC (resolvedHostC cwd p H) (resolveCwdC cwd H ++ ['/'])) := by
    rw [hRH, hNR]
    intro hand
    exact hand.2 hin
  have hfwd : mapHostToContC cwd p H C = '/' :: joinSlash (compsR C ++ k) := by
    rw [mapHostToContC, if_neg hHne, if_neg hpne, if_neg hncl, hsafe]
    have hrel : pathRelativeC (resolveCwdC cwd H) (resolvedHostC cwd p H) =
        joinSlash k := by
      rw [hRH, hNR]
      conv_lhs => rw [hp]
      rw [pathRelativeC_resolved, hpk, relCompsC_append]
    rw [hrel, pathJoinC_abs_join (isAbsoluteC_of_resolved hC) hk hgoodk]
  have hcm : compsR C ≠ [] := by
    intro h0
    apply hCroot
    rw [hC, resolveAbsC_eq, h0]
    rfl
  have hq : ('/' : Char) :: joinSlash (compsR C ++ k) = C ++ '/' :: joinSlash k := by
    rw [joinSlash_append hcm hk]
    conv_rhs => rw [hC, resolveAbsC_eq]
    rfl
  have hqabs : isAbsoluteC ('/' :: joinSlash (compsR C ++ k)) = true := by
    rw [isAbsoluteC]
    decide
  have hRH2 : resolvedHostC cwd ('/' :: joinSlash (compsR C ++ k)) (safeRootC C ['/']) =
      '/' :: joinSlash (compsR C ++ k) := by
    rw [resolvedHostC, if_pos hqabs, resolveAbsC_slash_join hgoodcmk]
  have hNRC : resolveCwdC cwd (safeRootC C ['/']) = C := by
    rw [hsafe, resolveCwdC, if_pos (isAbsoluteC_of_resolved hC), ← hC]
  have hsw2 : jsStartsWithC ('/' :: joinSlash (compsR C ++ k)) (C ++ ['/']) = true := by
    rw [hq, jsStartsWithC]
    apply List.isPrefixOf_iff_prefix.mpr
    refine ⟨joinSlash k, ?_⟩
    simp
  rw [hfwd, mapContToHostC, if_neg hHne, if_neg (by simp)]
  rw [if_neg (by
    rw [hRH2, hNRC]
    intro hand
    exact hand.2 hsw2)]
  have hq2 : ('/' : Char) :: joinSlash (compsR C ++ k) =
      resolveAbsC ('/' :: joinSlash (compsR C ++ k)) :=
    (resolveAbsC_slash_join hgoodcmk).symm
  have hrel2 : pathRelativeC (resolveCwdC cwd (safeRootC C ['/']))
      (resolvedHostC cwd ('/' :: joinSlash (compsR C ++ k)) (safeRootC C ['/'])) =
      joinSlash k := by
    rw [hRH2, hNRC, pathRelativeC_of_resolved hC hq2,
      compsR_slash_join hgoodcmk, relCompsC_append]
  rw [hrel2, pathJoinC_abs_join hH hk hgoodk, ← hpk]
  conv_rhs => rw [hp, resolveAbsC_eq]

theorem strEq_of_data {s t : String} (h : s.data = t.data) : s = t := by
  cases s
  cases t
  exact congrArg String.mk h

/-- `root` is a proper directory prefix of `q` (the root directory is the
parent of every other absolute path). -/
def properDirPrefix (root q : String) : Prop :=
  jsStartsWithC q.data (if root = "/" then ['/'] else root.data ++ ['/']) = true ∧
    q ≠ root

instance (root q : String) : Decidable (properDirPrefix root q) := by
  unfold properDirPrefix
  infer_instance

theorem joinSlash_append_ne {cm k : List (List Char)} (hk : k ≠ [])
    (hjk : joinSlash k ≠ []) : joinSlash (cm ++ k) ≠ joinSlash cm := by
  by_cases hcm : cm = []
  · rw [hcm]
    simpa [joinSlash] using hjk
  · rw [joinSlash_append hcm hk]
    intro he
    have hlen := congrArg List.length he
    simp [List.length_append] at hlen

/-- C5 (amended): for an absolute host root `H` and a resolve-normalized
container root `C`, `mapHostPathToContainer` returns either `C` itself or
a path with `C` as a proper directory prefix; and when additionally
`C ≠ "/"`, `mapContainerPathToHost` is a left inverse on
resolve-normalized paths strictly inside the resolved `H`.  (Without the
normalization of `C`, and for the inverse without `C ≠ "/"`, the claim
fails — see the counterexample.) -/
theorem mapper_image_and_inverse (cwd p H C : String)
    (hH : isAbsoluteC H.data = true) (hC : C.data = resolveAbsC C.data) :
    (mapHostPathToContainer cwd p H C = C ∨
      properDirPrefix C (mapHostPathToContainer cwd p H C)) ∧
    (C ≠ "/" → p.data = resolveAbsC p.data →
      jsStartsWithC p.data (resolveAbsC H.data ++ ['/']) = true →
      mapContainerPathToHost cwd (mapHostPathToContainer cwd p H C) H C = p) := by
  have hslash : ("/" : String).data = ['/'] := by decide
  constructor
  · rcases mapHostToContC_shape cwd.data p.data H.data C.data hH hC with h | ⟨k, hk, hgoodk, h⟩
    · exact Or.inl (congrArg String.mk h)
    · right
      unfold properDirPrefix
      have hqdata : (mapHostPathToContainer cwd p H C).data =
          '/' :: joinSlash (compsR C.data ++ k) := h
      have hjkne : joinSlash k ≠ [] :=
        joinSlash_ne_nil hk (fun c hc => (hgoodk c hc).1)
      have hCdata : C.data = '/' :: joinSlash (compsR C.data) := by
        conv_lhs => rw [hC, resolveAbsC_eq]
      constructor
      · by_cases hroot : C = "/"
        · rw [if_pos hroot, hqdata, jsStartsWithC]
          apply List.isPrefixOf_iff_prefix.mpr
          exact ⟨joinSlash (compsR C.data ++ k), rfl⟩
        · rw [if_neg hroot, hqdata, jsStartsWithC]
          apply List.isPrefixOf_iff_prefix.mpr
          have hcm : compsR C.data ≠ [] := by
            intro h0
            apply hroot
            apply strEq_of_data
            rw [hCdata, h0, hslash]
            rfl
          have key : ('/' : Char) :: joinSlash (compsR C.data ++ k) =
              (C.data ++ ['/']) ++ joinSlash k := by
            rw [joinSlash_append hcm hk]
            conv_rhs => rw [hCdata]
            simp
          exact ⟨joinSlash k, key.symm⟩
      · intro heq
        have hd : ('/' : Char) :: joinSlash (compsR C.data ++ k) = C.data := by
          rw [← hqdata, heq]
        have hd3 := hd.trans hCdata
        simp only [List.cons.injEq, true_and] at hd3
        exact joinSlash_append_ne hk hjkne hd3
  · intro hroot hp hin
    have hCroot : C.data ≠ ['/'] := by
      intro h0
      apply hroot
      apply strEq_of_data
      rw [h0, hslash]
    exact congrArg String.mk
      (map_roundtrip_data cwd.data p.data H.data C.data hH hC hCroot hp hin)

/-! ## Container name generator and command builders -/

/-- Characters admitted by the sanitizer's `[a-z0-9_.-]` class. -/
def isAllowedNameChar (c : Char) : Bool :=
  ('a' ≤ c ∧ c ≤ 'z') ∨ ('0' ≤ c ∧ c ≤ '9') ∨ c = '_' ∨ c = '.' ∨ c = '-'

/-- The dash-run collapse (regex `-+` to `-`), tracking whether the previous
kept character was a dash. -/
def collapseDashesAux : Bool → List Char → List Char
  | _, [] => []
  | prevDash, c :: rest =>
    if c = '-' then
      if prevDash then collapseDashesAux true rest
      else '-' :: collapseDashesAux true rest
    else c :: collapseDashesAux false rest

/-- Strip leading and trailing dashes. -/
def stripDashes (l : List Char) : List Char :=
  ((l.dropWhile (fun c => c = '-')).reverse.dropWhile (fun c => c = '-')).reverse

/-- `sanitizeContainerFragment`: lowercase, any run of characters outside
`[a-z0-9_.-]` becomes `-` (char-wise map followed by the dash collapse is
equivalent to the run-wise regex), dash runs collapse, edge dashes strip. -/
def sanitizeContainerFragment (s : String) : String :=
  ⟨stripDashes (collapseDashesAux false (s.data.map (fun c =>
    if isAllowedNameChar c.toLower then c.toLower else '-')))⟩

def DEFAULT_CONTAINER_PREFIX : String := "opencode"

/-- `sanitizeContainerName`: empty sanitizations fall back to the default. -/
def sanitizeContainerName (name : String) : String :=
  if sanitizeContainerFragment name = "" then DEFAULT_CONTAINER_PREFIX
  else sanitizeContainerFragment name

def joinWithDash : List (List Char) → List Char
  | [] => []
  | [x] => x
  | x :: y :: r => x ++ '-' :: joinWithDash (y :: r)

/-- `buildContainerName(prefix, projectId, sessionId)`. -/
def buildContainerName (pre projectId sessionId : String) : String :=
  ⟨joinWithDash ((([some (sanitizeContainerName pre).data,
    some (((sanitizeContainerFragment projectId).data.filter
      (fun c => ¬ c = '-')).take 8),
    (match (jsSplitC '-' (sanitizeContainerFragment sessionId).data).filter
        (fun l => ¬ l = []) with
      | [] => none
      | h :: _ => some (h.take 8))].filterMap id).filter (fun l => ¬ l = [])))⟩

-- Sanity anchors from `dind-router.test.ts`.
example : sanitizeContainerName "My/Container#1" = "my-container-1" := by decide
example : sanitizeContainerName "$$$" = "opencode" := by decide
example : buildContainerName "OpenCode" "abcdef1234567890" "session-xyz" =
    "opencode-abcdef12-session" := by decide

/-- JS `String.prototype.trim` (ASCII whitespace). -/
def jsWhitespace (c : Char) : Bool :=
  c = ' ' ∨ c = '\t' ∨ c = '\n' ∨ c = '\r' ∨ c = '\x0b' ∨ c = '\x0c'

def jsTrim (s : String) : String :=
  ⟨((s.data.dropWhile jsWhitespace).reverse.dropWhile jsWhitespace).reverse⟩

/-- Modelled from the spec: `escapeBash` is imported from `kdco-primitives`,
which is not among the provided sources.  Per spec §4.2, quoted substitutions
are escaped against `$`, backquote, double quote, backslash and newlines. -/
def escapeBash (s : String) : String :=
  ⟨s.data.foldr (fun c acc =>
    if c = '\\' ∨ c = '"' ∨ c = '$' ∨ c = Char.ofNat 96 then '\\' :: c :: acc
    else if c = '\n' then '\\' :: 'n' :: acc
    else c :: acc) []⟩

/-- `buildFailureCommand`. -/
def buildFailureCommand (message : String) : String :=
  "printf \"%s\\n\" \"" ++ escapeBash message ++ "\"; exit 1"

/-- Parameters of `buildDockerExecCommand`. -/
structure DockerExecParams where
  dockerBinary : String
  container : String
  command : String
  workdir : Option String
  env : List (String × String)
deriving DecidableEq, Repr

/-- `buildDockerExecCommand`. -/
def buildDockerExecCommand (p : DockerExecParams) : String :=
  if p.dockerBinary = "" ∨ p.container = "" ∨ p.command = "" then
    buildFailureCommand "DIND routing failed: missing docker exec arguments"
  else
    String.intercalate " " ([p.dockerBinary ++ " exec -i"] ++
      (match p.workdir with
        | some w => if w = "" then [] else ["--workdir \"" ++ escapeBash w ++ "\""]
        | none => []) ++
      (p.env.map (fun kv => "-e \"" ++ escapeBash (kv.1 ++ "=" ++ kv.2) ++ "\"")) ++
      ["\"" ++ escapeBash p.container ++ "\"",
        "sh -lc \"" ++ escapeBash p.command ++ "\""])

/-- `buildReadCommand`. -/
def buildReadCommand (filePath : String) : String :=
  "cat -- \"" ++ escapeBash filePath ++ "\""

/-- `buildListCommand` (the hook calls it with the default limit 200). -/
def buildListCommand (dirPath : String) (limit : Nat) : String :=
  "ls -A -p -1 -- \"" ++
    escapeBash (if dirPath = "" then "." else dirPath) ++
    "\" 2>/dev/null | head -n " ++ toString (if 0 < limit then limit else 200)

/-- `buildGrepCommand`: empty (post-trim) patterns give the empty command. -/
def buildGrepCommand (pattern : String) (includeArg : Option String) : String :=
  if jsTrim pattern = "" then ""
  else
    "rg -nH --field-match-separator=| --regexp \"" ++ escapeBash (jsTrim pattern) ++ "\"" ++
      (match includeArg with
        | some inc => if jsTrim inc = "" then "" else " --glob \"" ++ escapeBash (jsTrim inc) ++ "\""
        | none => "") ++ " 2>/dev/null"

/-- `buildGlobCommand` (the hook calls it with the default limit 100). -/
def buildGlobCommand (pattern : Option String) (limit : Nat) : String :=
  (match pattern with
    | some pat => if jsTrim pat = "" then "rg --files"
        else "rg --files -g \"" ++ escapeBash (jsTrim pat) ++ "\""
    | none => "rg --files") ++ " 2>/dev/null | head -n " ++ toString limit

-- Sanity anchors from `dind-router.test.ts`.
example : buildReadCommand "/workspace/app/file.ts" =
    "cat -- \"/workspace/app/file.ts\"" := by decide
example : buildListCommand "/workspace/app" 50 =
    "ls -A -p -1 -- \"/workspace/app\" 2>/dev/null | head -n 50" := by decide
example : buildGrepCommand "TODO" (some "*.ts") =
    "rg -nH --field-match-separator=| --regexp \"TODO\" --glob \"*.ts\" 2>/dev/null" := by
  decide
example : buildGlobCommand (some "*.ts") 25 =
    "rg --files -g \"*.ts\" 2>/dev/null | head -n 25" := by decide

/-! ## Routing state store

The on-disk state file is modelled as a `FileContent`: missing, corrupt
(unparseable JSON), or a parsed `ContainerState`.  `writeState` serialises
and atomically renames, which we model as replacing the file with the
parsed form of what was written (JSON round-trips this record type).
Every store operation runs under the process mutex and re-reads the file,
so persistence across restarts is inherent in the model. -/

def STATE_VERSION : Nat := 1

structure SessionEntry where
  container : String
  updatedAt : Nat
deriving DecidableEq, Repr

structure ContainerState where
  version : Nat
  sessions : List (String × SessionEntry)
deriving DecidableEq, Repr

inductive FileContent
  | missing
  | corrupt
  | parsed (st : ContainerState)
deriving DecidableEq, Repr

def freshState : ContainerState :=
  { version := STATE_VERSION, sessions := [] }

/-- `readState`: missing or corrupt files and version mismatches give a
fresh empty state. -/
def readState : FileContent → ContainerState
  | .missing => freshState
  | .corrupt => freshState
  | .parsed st => if st.version ≠ STATE_VERSION then freshState else st

/-- `readState` as a file-system step: the read never writes the file. -/
def readStateOp (f : FileContent) : ContainerState × FileContent :=
  (readState f, f)

/-- `writeState`: temp file plus atomic rename. -/
def writeState (st : ContainerState) : FileContent :=
  .parsed st

/-- JS object property update `sessions[scopeId] = entry`. -/
def setEntry (l : List (String × SessionEntry)) (k : String) (v : SessionEntry) :
    List (String × SessionEntry) :=
  l.filter (fun kv => ¬ kv.1 = k) ++ [(k, v)]

/-- JS `delete sessions[scopeId]`. -/
def eraseEntry (l : List (String × SessionEntry)) (k : String) :
    List (String × SessionEntry) :=
  l.filter (fun kv => ¬ kv.1 = k)

/-- JS `x || null` on an optional string. -/
def orNull : Option String → Option String
  | some s => if s = "" then none else some s
  | none => none

/-- `getMappedContainer` (under the mutex): read and look up. -/
def getMappedContainer (f : FileContent) (scopeId : String) : Option String :=
  orNull (((readState f).sessions.lookup scopeId).map (fun e => e.container))

/-- `setMappedContainer` (under the mutex): read, set, write. -/
def setMappedContainer (f : FileContent) (scopeId container : String)
    (now : Nat) : FileContent :=
  writeState { readState f with
    sessions := setEntry (readState f).sessions scopeId
      { container := container, updatedAt := now } }

/-- `clearMappedContainer` (under the mutex): returns the previous binding
and deletes it; no write happens when there was none. -/
def clearMappedContainer (f : FileContent) (scopeId : String) :
    Option String × FileContent :=
  match orNull (((readState f).sessions.lookup scopeId).map (fun e => e.container)) with
  | some c =>
    (some c, writeState { readState f with
      sessions := eraseEntry (readState f).sessions scopeId })
  | none => (none, f)

theorem lookup_cons {β : Type} (k k1 : String) (v1 : β)
    (l : List (String × β)) :
    ((k1, v1) :: l).lookup k = if k = k1 then some v1 else l.lookup k := by
  by_cases h : k = k1
  · simp [List.lookup, h]
  · simp only [List.lookup, show (k == k1) = false by simpa using h]
    rw [if_neg h]

theorem lookup_filterKey_self {β : Type} (l : List (String × β)) (k : String) :
    (l.filter (fun kv => ¬ kv.1 = k)).lookup k = none := by
  induction l with
  | nil => rfl
  | cons kv l ih =>
    rcases kv with ⟨k1, v1⟩
    by_cases h : k1 = k
    · simpa [List.filter_cons, h] using ih
    · rw [List.filter_cons]
      simp only [h]
      rw [if_pos (by simp [h]), lookup_cons, if_neg (fun he => h he.symm)]
      exact ih

theorem lookup_filterKey_other {β : Type} (l : List (String × β)) (k k2 : String)
    (hne : k2 ≠ k) :
    (l.filter (fun kv => ¬ kv.1 = k)).lookup k2 = l.lookup k2 := by
  induction l with
  | nil => rfl
  | cons kv l ih =>
    rcases kv with ⟨k1, v1⟩
    by_cases h : k1 = k
    · rw [List.filter_cons, if_neg (by simp [h]), lookup_cons,
        if_neg (by rw [h]; exact hne), ih]
    · rw [List.filter_cons, if_pos (by simp [h]), lookup_cons, lookup_cons]
      by_cases h2 : k2 = k1
      · rw [if_pos h2, if_pos h2]
      · rw [if_neg h2, if_neg h2, ih]

theorem lookup_append_none {β : Type} {l1 l2 : List (String × β)} {k : String}
    (h : l1.lookup k = none) : (l1 ++ l2).lookup k = l2.lookup k := by
  induction l1 with
  | nil => rfl
  | cons kv l ih =>
    rcases kv with ⟨k1, v1⟩
    rw [lookup_cons] at h
    by_cases h2 : k = k1
    · rw [if_pos h2] at h
      exact absurd h (by simp)
    · rw [if_neg h2] at h
      rw [List.cons_append, lookup_cons, if_neg h2]
      exact ih h

theorem lookup_setEntry_self (l : List (String × SessionEntry)) (k : String)
    (v : SessionEntry) : (setEntry l k v).lookup k = some v := by
  rw [setEntry, lookup_append_none (lookup_filterKey_self l k), lookup_cons,
    if_pos rfl]

theorem lookup_append_single_ne {β : Type} (L : List (String × β))
    (k k2 : String) (v : β) (hne : k2 ≠ k) :
    (L ++ [(k, v)]).lookup k2 = L.lookup k2 := by
  induction L with
  | nil =>
    rw [List.nil_append, lookup_cons, if_neg hne]
  | cons kv l2 ih =>
    rcases kv with ⟨k1, v1⟩
    rw [List.cons_append, lookup_cons, lookup_cons]
    by_cases h2 : k2 = k1
    · rw [if_pos h2, if_pos h2]
    · rw [if_neg h2, if_neg h2, ih]

theorem lookup_setEntry_other (l : List (String × SessionEntry)) (k k2 : String)
    (v : SessionEntry) (hne : k2 ≠ k) :
    (setEntry l k v).lookup k2 = l.lookup k2 := by
  rw [setEntry, lookup_append_single_ne _ _ _ _ hne,
    lookup_filterKey_other l k k2 hne]

theorem lookup_eraseEntry_self (l : List (String × SessionEntry)) (k : String) :
    (eraseEntry l k).lookup k = none :=
  lookup_filterKey_self l k

theorem lookup_eraseEntry_other (l : List (String × SessionEntry)) (k k2 : String)
    (hne : k2 ≠ k) : (eraseEntry l k).lookup k2 = l.lookup k2 :=
  lookup_filterKey_other l k k2 hne

/-! ## Configuration and session scope resolver -/

inductive ScopeMode
  | root
  | session
deriving DecidableEq, Repr

structure RoutingCfg where
  scope : ScopeMode
  fallbackToHost : Bool
deriving DecidableEq, Repr

structure ContainerCfg where
  name : Option String
  namePrefix : String
  image : String
  workdir : String
  projectPath : Option String
  network : Option String
  env : List (String × String)
  mounts : List String
  command : List String
  autoCreate : Bool
  autoStart : Bool
deriving DecidableEq, Repr

structure DindConfig where
  enabled : Bool
  toolNames : List String
  dockerBinary : String
  bypassPrefixes : List String
  stateFile : String
  routing : RoutingCfg
  container : ContainerCfg
deriving DecidableEq, Repr

def MAX_SESSION_CHAIN_DEPTH : Nat := 10

/-- The parent-chain walk of `getRootSessionID`: each iteration pushes the
current id onto `visited` and queries its parent; a parentless node is
returned directly, and fuel exhaustion returns the node the walk moved to
after the final query (third component: whether the loop exhausted). -/
def walkRoot (parent : String → Option String) :
    Nat → String → List String → String × List String × Bool
  | 0, cur, vis => (cur, vis, true)
  | n + 1, cur, vis =>
    match parent cur with
    | none => (cur, vis ++ [cur], false)
    | some p => walkRoot parent n p (vis ++ [cur])

/-- Lookup-equivalent model of `Map.set`. -/
def insertCache (m : List (String × String)) (k v : String) :
    List (String × String) :=
  (k, v) :: m.filter (fun kv => ¬ kv.1 = k)

/-- `getRootSessionID` over a pure parent oracle: cache hit, else walk the
chain (depth 10) and cache every visited id at the result. -/
def getRootSessionID (parent : String → Option String) (sessionID : String)
    (cache : List (String × String)) : String × List (String × String) :=
  match orNull (cache.lookup sessionID) with
  | some c => (c, cache)
  | none =>
    match walkRoot parent MAX_SESSION_CHAIN_DEPTH sessionID [] with
    | (root, vis, _) =>
      (root, vis.foldl (fun m sid => insertCache m sid root) cache)

/-- `resolveScopeId`: scope `session` returns the live id without a walk. -/
def resolveScopeId (cfg : DindConfig) (parent : String → Option String)
    (sessionID : String) (cache : List (String × String)) :
    String × List (String × String) :=
  if cfg.routing.scope = ScopeMode.session then (sessionID, cache)
  else getRootSessionID parent sessionID cache

theorem lookup_insertCache (m : List (String × String)) (k v x : String) :
    (insertCache m k v).lookup x = if x = k then some v else m.lookup x := by
  rw [insertCache, lookup_cons]
  by_cases h : x = k
  · rw [if_pos h, if_pos h]
  · rw [if_neg h, if_neg h, lookup_filterKey_other m k x h]

theorem lookup_foldl_insertCache (vis : List String) (root x : String) :
    ∀ cache, ((vis.foldl (fun m sid => insertCache m sid root) cache).lookup x) =
      if x ∈ vis then some root else cache.lookup x := by
  induction vis with
  | nil =>
    intro cache
    simp
  | cons a vis ih =>
    intro cache
    rw [List.foldl_cons, ih (insertCache cache a root), lookup_insertCache]
    by_cases h1 : x ∈ vis
    · rw [if_pos h1, if_pos (List.mem_cons_of_mem a h1)]
    · rw [if_neg h1]
      by_cases h2 : x = a
      · rw [if_pos h2, if_pos (by rw [h2]; exact List.mem_cons_self a vis)]
      · rw [if_neg h2, if_neg (by
          intro hmem
          rcases List.mem_cons.mp hmem with h | h
          · exact h2 h
          · exact h1 h)]

theorem walkRoot_zero (parent : String → Option String) (cur : String)
    (vis : List String) : walkRoot parent 0 cur vis = (cur, vis, true) := rfl

theorem walkRoot_succ_none {parent : String → Option String} {cur : String}
    (n : Nat) (vis : List String) (hp : parent cur = none) :
    walkRoot parent (n + 1) cur vis = (cur, vis ++ [cur], false) := by
  rw [walkRoot, hp]

theorem walkRoot_succ_some {parent : String → Option String} {cur p : String}
    (n : Nat) (vis : List String) (hp : parent cur = some p) :
    walkRoot parent (n + 1) cur vis = walkRoot parent n p (vis ++ [cur]) := by
  rw [walkRoot, hp]

theorem walkRoot_length (parent : String → Option String) :
    ∀ (fuel : Nat) (cur : String) (vis : List String),
      (walkRoot parent fuel cur vis).2.1.length ≤ vis.length + fuel := by
  intro fuel
  induction fuel with
  | zero =>
    intro cur vis
    rw [walkRoot_zero]
    simp
  | succ n ih =>
    intro cur vis
    rcases hp : parent cur with _ | p
    · rw [walkRoot_succ_none n vis hp]
      simp
    · rw [walkRoot_succ_some n vis hp]
      have h2 := ih p (vis ++ [cur])
      simp at h2
      omega

theorem walkRoot_found (parent : String → Option String) :
    ∀ (fuel : Nat) (cur : String) (vis : List String),
      (walkRoot parent fuel cur vis).2.2 = false →
        parent (walkRoot parent fuel cur vis).1 = none ∧
        (walkRoot parent fuel cur vis).2.1.getLast? =
          some (walkRoot parent fuel cur vis).1 := by
  intro fuel
  induction fuel with
  | zero =>
    intro cur vis h
    rw [walkRoot_zero] at h
    exact absurd h (by simp)
  | succ n ih =>
    intro cur vis h
    rcases hp : parent cur with _ | p
    · rw [walkRoot_succ_none n vis hp] at h ⊢
      exact ⟨hp, by simp⟩
    · rw [walkRoot_succ_some n vis hp] at h ⊢
      exact ih p (vis ++ [cur]) h

theorem walkRoot_exhausted (parent : String → Option String) :
    ∀ (fuel : Nat) (cur : String) (vis : List String),
      (walkRoot parent fuel cur vis).2.2 = true →
        (walkRoot parent fuel cur vis).2.1.length = vis.length + fuel ∧
        (0 < fuel → ∃ last, (walkRoot parent fuel cur vis).2.1.getLast? = some last ∧
          parent last = some (walkRoot parent fuel cur vis).1) := by
  intro fuel
  induction fuel with
  | zero =>
    intro cur vis _
    rw [walkRoot_zero]
    exact ⟨by simp, fun h => absurd h (by simp)⟩
  | succ n ih =>
    intro cur vis h
    rcases hp : parent cur with _ | p
    · rw [walkRoot_succ_none n vis hp] at h
      exact absurd h (by simp)
    · rw [walkRoot_succ_some n vis hp] at h ⊢
      rcases n with _ | m
      · rw [walkRoot_zero] at h ⊢
        refine ⟨by simp, fun _ => ⟨cur, by simp, by rw [hp]⟩⟩
      · have h2 := ih p (vis ++ [cur]) h
        refine ⟨?_, fun _ => h2.2 (by omega)⟩
        rw [h2.1]
        simp
        omega

/-! ## Container labels and `docker run` argument vectors -/

/-- `buildContainerLabels`. -/
def buildContainerLabels (projectId scopeId : String) : List (String × String) :=
  [("opencode.project", projectId), ("opencode.scope", scopeId)]

/-- Input record of `createContainer`. -/
structure CreateInput where
  name : String
  image : String
  workdir : String
  projectPath : Option String
  network : Option String
  env : List (String × String)
  mounts : List String
  command : Option (List String)
  labels : Option (List (String × String))
deriving DecidableEq, Repr

/-- JS object spread `{...a, ...b}` on string records: keys of `a` in order
(values overridden by `b`), then the new keys of `b`. -/
def mergeEnv (a b : List (String × String)) : List (String × String) :=
  (a.map (fun kv => (kv.1, (b.lookup kv.1).getD kv.2))) ++
    b.filter (fun kv => (a.lookup kv.1).isNone)

/-- The argument vector `createContainer` passes to the runtime
(`docker run -d --name ... [--label k=v]> ... IMAGE CMD`);
`ensureContainerRunning` forwards its `input` to `createContainer`
verbatim when it creates. -/
def createContainerArgs (cfg : DindConfig) (input : CreateInput) : List String :=
  ["run", "-d", "--name", input.name, "--workdir", input.workdir] ++
    (match input.network with
      | some n => ["--network", n]
      | none => []) ++
    (match input.labels with
      | some lbls => (lbls.map (fun kv => ["--label", kv.1 ++ "=" ++ kv.2])).flatten
      | none => []) ++
    ((mergeEnv cfg.container.env input.env).map
      (fun kv => ["-e", kv.1 ++ "=" ++ kv.2])).flatten ++
    (match input.projectPath with
      | some pp => ["-v", pp ++ ":" ++ input.workdir]
      | none => []) ++
    (input.mounts.map (fun m => ["-v", m])).flatten ++
    [input.image] ++ input.command.getD cfg.container.command

/-- The name/label resolution of the `dind_container_create` tool:
`args.name || (scopeId ? buildContainerName(..) : undefined)`, error when
neither exists; labels attached only when a session scope is available. -/
def createToolPlan (cfg : DindConfig) (projectId : String)
    (scopeId : Option String) (argName : Option String) :
    Option (String × Option (List (String × String))) :=
  match orNull argName with
  | some n => some (n, scopeId.map (fun sid => buildContainerLabels projectId sid))
  | none =>
    match scopeId with
    | some sid =>
      some (buildContainerName cfg.container.namePrefix projectId sid,
        some (buildContainerLabels projectId sid))
    | none => none

/-- The argument vector of the `dind_container_list` tool's `docker ps`. -/
def createContainerListArgs (all : Bool) (projectId : String) : List String :=
  ["ps"] ++ (if all then ["-a"] else []) ++
    ["--format", "\x7b\x7b.Names\x7d\x7d\t\x7b\x7b.Status\x7d\x7d",
      "--filter", "label=opencode.project=" ++ projectId]

/-! ## The pre-execution hook (`tool.execute.before`)

The hook's effectful collaborators are isolated in `HookOracle`:
`scopeOf` is the (deterministic, memoised) result of `resolveScopeId`;
`mappedOf` is the routing-state lookup for a scope; `ensureOk`/`ensureErr`
are the verdict and error of `ensureContainerRunning` for a container
name.  The hook's observable effects are the returned (possibly rewritten)
args, the staged `PendingCall`, the `setMappedContainer` write, and the
input it passed to `ensureContainerRunning`. -/

structure HookArgs where
  command : Option String
  cwd : Option String
  env : Option (List (String × String))
  filePath : Option String
  pattern : Option String
  path : Option String
  includeArg : Option String
  globArg : Option String
  content : Option String
  text : Option String
  dir : Option String
  directory : Option String
deriving DecidableEq, Repr

/-- Key-indexed access to the args bag (the keys `pickFirstStringArg` is
called with in the source). -/
def argGet (a : HookArgs) (key : String) : Option String :=
  if key = "filePath" then a.filePath
  else if key = "path" then a.path
  else if key = "dir" then a.dir
  else if key = "directory" then a.directory
  else if key = "include" then a.includeArg
  else if key = "glob" then a.globArg
  else if key = "pattern" then a.pattern
  else none

/-- `pickFirstStringArg`: first key holding a non-empty string. -/
def pickFirstStringArg (a : HookArgs) : List String → Option String
  | [] => none
  | k :: rest =>
    match orNull (argGet a k) with
    | some v => some v
    | none => pickFirstStringArg a rest

structure PreInput where
  tool : String
  sessionID : String
  callID : Option String
deriving DecidableEq, Repr

inductive StagedCall
  | readReq (container containerPath hostPath : String)
  | writeReq (container hostPath containerPath : String)
  | editReq (container hostPath containerPath : String)
  | globReq (container hostRoot containerRoot pattern : String)
  | listReq (container hostPath containerPath : String)
  | grepReq (container hostRoot containerRoot pattern : String)
      (includeArg : Option String)
deriving DecidableEq, Repr

structure HookCtx where
  cwd : String
  projectRoot : String
  projectId : String
deriving DecidableEq, Repr

structure HookOracle where
  scopeOf : String → String
  mappedOf : String → Option String
  ensureOk : String → Bool
  ensureErr : String → Option String

/-- Input record the hook passes to `ensureContainerRunning` (no env,
command or create-tool overrides on this path). -/
structure EnsureInput where
  name : String
  image : String
  workdir : String
  projectPath : String
  network : Option String
  mounts : List String
  labels : List (String × String)
deriving DecidableEq, Repr

structure PreResult where
  args : HookArgs
  staged : Option StagedCall
  binding : Option (String × String)
  ensured : Option EnsureInput
deriving DecidableEq, Repr

/-- `shouldInterceptCommand`: bypass-prefix check on the trimmed command. -/
def shouldInterceptCommand (command : String) (cfg : DindConfig) : Bool :=
  ¬ cfg.bypassPrefixes.any (fun pre => jsStartsWithC (jsTrim command).data pre.data)

/-- The container-name resolution common to all hook branches:
`config.container.name`, else the routing-state binding, else (with
`autoCreate`) a generated name. -/
def resolveContainerName (cfg : DindConfig) (ctx : HookCtx) (o : HookOracle)
    (scopeId : String) : Option String :=
  match orNull cfg.container.name with
  | some n => some n
  | none =>
    match orNull (o.mappedOf scopeId) with
    | some m => some m
    | none =>
      if cfg.container.autoCreate then
        some (buildContainerName cfg.container.namePrefix ctx.projectId scopeId)
      else none

/-- `resolveProjectPath`: `config.container.projectPath || projectRoot`. -/
def resolveProjectPath (cfg : DindConfig) (projectRoot : String) : String :=
  (orNull cfg.container.projectPath).getD projectRoot

def hookEnsureInput (cfg : DindConfig) (ctx : HookCtx) (scopeId name : String) :
    EnsureInput :=
  { name := name
    image := cfg.container.image
    workdir := cfg.container.workdir
    projectPath := resolveProjectPath cfg ctx.projectRoot
    network := cfg.container.network
    mounts := cfg.container.mounts
    labels := buildContainerLabels ctx.projectId scopeId }

/-- Outcome of the scope/name/ensure prologue shared by every branch. -/
inductive Acquire
  | noContainer
  | ensureFailed (scopeId name : String) (input : EnsureInput)
  | ok (scopeId name : String) (input : EnsureInput)
      (binding : Option (String × String))
deriving DecidableEq, Repr

/-- Resolve the scope, the container name, run `ensureContainerRunning`,
and (on success, when `autoCreate`) persist the binding — the prologue each
branch of `tool.execute.before` performs. -/
def acquireContainer (cfg : DindConfig) (ctx : HookCtx) (o : HookOracle)
    (sessionId : String) : Acquire :=
  match orNull (resolveContainerName cfg ctx o (o.scopeOf sessionId)) with
  | none => .noContainer
  | some name =>
    if o.ensureOk name then
      .ok (o.scopeOf sessionId) name
        (hookEnsureInput cfg ctx (o.scopeOf sessionId) name)
        (if cfg.container.autoCreate then some (o.scopeOf sessionId, name) else none)
    else .ensureFailed (o.scopeOf sessionId) name
      (hookEnsureInput cfg ctx (o.scopeOf sessionId) name)

/-- The unchanged result (every early `return` of the hook). -/
def skipResult (args : HookArgs) : PreResult :=
  ⟨args, none, none, none⟩

/-- `tool.execute.before`. -/
def preHook (cfg : DindConfig) (ctx : HookCtx) (o : HookOracle)
    (inp : PreInput) (args : HookArgs) : PreResult :=
  if ¬ cfg.enabled then skipResult args
  else if ¬ cfg.toolNames.contains inp.tool then skipResult args
  else if inp.tool = "read" then
    match orNull args.filePath with
    | none => skipResult args
    | some filePath =>
      match orNull inp.callID with
      | none => skipResult args
      | some _ =>
        if inp.sessionID = "" then skipResult args
        else
          match acquireContainer cfg ctx o inp.sessionID with
          | .noContainer => skipResult args
          | .ensureFailed _ _ einp => ⟨args, none, none, some einp⟩
          | .ok _ name einp binding =>
            ⟨args, some (.readReq name
                (mapHostPathToContainer ctx.cwd filePath ctx.projectRoot
                  cfg.container.workdir) filePath),
              binding, some einp⟩
  else if inp.tool = "write" ∨ inp.tool = "edit" then
    match pickFirstStringArg args ["filePath", "path"] with
    | none => skipResult args
    | some filePath =>
      match orNull inp.callID with
      | none => skipResult args
      | some _ =>
        if inp.sessionID = "" then skipResult args
        else
          match resolveHostPathInProject ctx.cwd ctx.projectRoot filePath with
          | none => skipResult args
          | some hostPath =>
            match acquireContainer cfg ctx o inp.sessionID with
            | .noContainer => skipResult args
            | .ensureFailed _ _ einp => ⟨args, none, none, some einp⟩
            | .ok _ name einp binding =>
              ⟨args, some (if inp.tool = "write" then
                  .writeReq name hostPath
                    (mapHostPathToContainer ctx.cwd hostPath ctx.projectRoot
                      cfg.container.workdir)
                else
                  .editReq name hostPath
                    (mapHostPathToContainer ctx.cwd hostPath ctx.projectRoot
                      cfg.container.workdir)),
                binding, some einp⟩
  else if inp.tool = "glob" then
    match orNull args.pattern with
    | none => skipResult args
    | some pattern =>
      match orNull inp.callID with
      | none => skipResult args
      | some _ =>
        if inp.sessionID = "" then skipResult args
        else
          match acquireContainer cfg ctx o inp.sessionID with
          | .noContainer => skipResult args
          | .ensureFailed _ _ einp => ⟨args, none, none, some einp⟩
          | .ok _ name einp binding =>
            ⟨args, some (.globReq name ((orNull args.path).getD ctx.projectRoot)
                (mapHostPathToContainer ctx.cwd
                  ((orNull args.path).getD ctx.projectRoot) ctx.projectRoot
                  cfg.container.workdir) pattern),
              binding, some einp⟩
  else if inp.tool = "list" then
    match orNull inp.callID with
    | none => skipResult args
    | some _ =>
      if inp.sessionID = "" then skipResult args
      else
        match resolveHostPathInProject ctx.cwd ctx.projectRoot
            ((pickFirstStringArg args ["path", "dir", "directory"]).getD
              ctx.projectRoot) with
        | none => skipResult args
        | some hostPath =>
          match acquireContainer cfg ctx o inp.sessionID with
          | .noContainer => skipResult args
          | .ensureFailed _ _ einp => ⟨args, none, none, some einp⟩
          | .ok _ name einp binding =>
            ⟨args, some (.listReq name hostPath
                (mapHostPathToContainer ctx.cwd hostPath ctx.projectRoot
                  cfg.container.workdir)),
              binding, some einp⟩
  else if inp.tool = "grep" then
    match pickFirstStringArg args ["pattern"] with
    | none => skipResult args
    | some pattern =>
      match orNull inp.callID with
      | none => skipResult args
      | some _ =>
        if inp.sessionID = "" then skipResult args
        else
          match resolveHostPathInProject ctx.cwd ctx.projectRoot
              ((pickFirstStringArg args ["path", "dir", "directory"]).getD
                ctx.projectRoot) with
          | none => skipResult args
          | some hostRoot =>
            match acquireContainer cfg ctx o inp.sessionID with
            | .noContainer => skipResult args
            | .ensureFailed _ _ einp => ⟨args, none, none, some einp⟩
            | .ok _ name einp binding =>
              ⟨args, some (.grepReq name hostRoot
                  (mapHostPathToContainer ctx.cwd hostRoot ctx.projectRoot
                    cfg.container.workdir) pattern
                  (pickFirstStringArg args ["include", "glob"])),
                binding, some einp⟩
  else
    match orNull args.command with
    | none => skipResult args
    | some command =>
      if ¬ shouldInterceptCommand command cfg then skipResult args
      else if inp.sessionID = "" then skipResult args
      else
        match acquireContainer cfg ctx o inp.sessionID with
        | .noContainer => skipResult args
        | .ensureFailed _ name einp =>
          if cfg.routing.fallbackToHost then ⟨args, none, none, some einp⟩
          else
            ⟨{ args with command := some (buildFailureCommand
                ((o.ensureErr name).getD
                  ("Container " ++ name ++ " is unavailable"))) },
              none, none, some einp⟩
        | .ok _ name einp binding =>
          ⟨{ args with command := some (buildDockerExecCommand
              { dockerBinary := cfg.dockerBinary
                container := name
                command := command
                workdir := some (mapHostPathToContainer ctx.cwd
                  ((orNull args.cwd).getD ctx.projectRoot) ctx.projectRoot
                  cfg.container.workdir)
                env := mergeEnv cfg.container.env (args.env.getD []) }) },
            none, binding, some einp⟩

/-! ## The post-execution hook (`tool.execute.after`)

`RawProc` is the raw subprocess capture; `runDocker` trims stdout and
stderr and derives `ok` from the exit code.  The container-side exec is an
oracle from (container, command, workdir?) to a raw capture.  The output
record's `metadata` is never touched by the hook and is omitted. -/

structure RawProc where
  stdout : String
  stderr : String
  exitCode : Nat
deriving DecidableEq, Repr

structure DockerResult where
  ok : Bool
  stdout : String
  stderr : String
  exitCode : Nat
deriving DecidableEq, Repr

/-- `runDocker`'s result assembly: `ok = exitCode == 0`, both streams
trimmed. -/
def runDockerResult (r : RawProc) : DockerResult :=
  { ok := r.exitCode = 0
    stdout := jsTrim r.stdout
    stderr := jsTrim r.stderr
    exitCode := r.exitCode }

def ExecOracle := String → String → Option String → RawProc

structure HookOutput where
  title : String
  output : String
deriving DecidableEq, Repr

structure ReadReq where
  container : String
  containerPath : String
  hostPath : String
deriving DecidableEq, Repr

structure FileReq where
  container : String
  hostPath : String
  containerPath : String
deriving DecidableEq, Repr

structure SearchReq where
  container : String
  hostRoot : String
  containerRoot : String
  pattern : String
deriving DecidableEq, Repr

structure GrepReq where
  container : String
  hostRoot : String
  containerRoot : String
  pattern : String
  includeArg : Option String
deriving DecidableEq, Repr

/-- The six per-call staging maps of the plugin closure. -/
structure Maps where
  readReqs : List (String × ReadReq)
  writeReqs : List (String × FileReq)
  editReqs : List (String × FileReq)
  globReqs : List (String × SearchReq)
  listReqs : List (String × FileReq)
  grepReqs : List (String × GrepReq)
deriving DecidableEq, Repr

def emptyMaps : Maps := ⟨[], [], [], [], [], []⟩

/-- Lookup-equivalent model of `Map.set`. -/
def mapSet {β : Type} (m : List (String × β)) (k : String) (v : β) :
    List (String × β) :=
  (k, v) :: m.filter (fun kv => ¬ kv.1 = k)

/-- `Map.delete`. -/
def mapDelete {β : Type} (m : List (String × β)) (k : String) :
    List (String × β) :=
  m.filter (fun kv => ¬ kv.1 = k)

/-- Staging performed at the end of a pre-hook branch (`xxxRequests.set`). -/
def applyStage (callID : Option String) (s : Option StagedCall) (m : Maps) : Maps :=
  match callID, s with
  | some cid, some (.readReq c cp hp) =>
    { m with readReqs := mapSet m.readReqs cid ⟨c, cp, hp⟩ }
  | some cid, some (.writeReq c hp cp) =>
    { m with writeReqs := mapSet m.writeReqs cid ⟨c, hp, cp⟩ }
  | some cid, some (.editReq c hp cp) =>
    { m with editReqs := mapSet m.editReqs cid ⟨c, hp, cp⟩ }
  | some cid, some (.globReq c hr cr pat) =>
    { m with globReqs := mapSet m.globReqs cid ⟨c, hr, cr, pat⟩ }
  | some cid, some (.listReq c hp cp) =>
    { m with listReqs := mapSet m.listReqs cid ⟨c, hp, cp⟩ }
  | some cid, some (.grepReq c hr cr pat inc) =>
    { m with grepReqs := mapSet m.grepReqs cid ⟨c, hr, cr, pat, inc⟩ }
  | _, none => m
  | none, _ => m

def joinWithChar (sep : Char) : List (List Char) → List Char
  | [] => []
  | [x] => x
  | x :: y :: r => x ++ sep :: joinWithChar sep (y :: r)

def pathJoinStr (a b : String) : String :=
  ⟨pathJoinC a.data b.data⟩

/-- One line of the grep post-processing: split on `|` into
`(filePath, lineNum, ...rest)`, remap the file path, re-join dropping empty
components. -/
def grepMapLine (cwd hostRoot containerRoot line : String) : String :=
  match jsSplitC '|' line.data with
  | [] => line
  | fp :: restAll =>
    if fp = [] ∨ restAll.head? = none ∨ restAll.head? = some [] then line
    else
      ⟨joinWithChar '|' (([(if isAbsoluteC fp then
            (mapContainerPathToHost cwd ⟨fp⟩ hostRoot containerRoot).data
          else pathJoinC hostRoot.data fp),
          (restAll.head?).getD [],
          joinWithChar '|' (restAll.drop 1)].filter (fun l => ¬ l = [])))⟩

/-- The grep branch's stdout processing: split lines, trim, drop blanks,
remap each line. -/
def processGrepOutput (cwd hostRoot containerRoot stdout : String) : String :=
  ⟨joinWithChar '\n' (((((jsSplitC '\n' stdout.data).map
    (fun l => jsTrim ⟨l⟩)).filter (fun s => ¬ s = "")).map
    (fun line => grepMapLine cwd hostRoot containerRoot line)).map String.data)⟩

/-- The glob branch's stdout processing: split, trim, drop blanks, take
100, remap each path. -/
def processGlobOutput (cwd hostRoot containerRoot stdout : String) : String :=
  ⟨joinWithChar '\n' (((((jsSplitC '\n' stdout.data).map
    (fun l => jsTrim ⟨l⟩)).filter (fun s => ¬ s = "")).take 100).map
    (fun line => if isAbsoluteC line.data then
        (mapContainerPathToHost cwd line hostRoot containerRoot).data
      else pathJoinC hostRoot.data line.data))⟩

/-- `tool.execute.after`. -/
def postHook (cwd : String) (ex : ExecOracle)
    (tool callID : String) (m : Maps) (out : HookOutput) : Maps × HookOutput :=
  if tool = "read" then
    match m.readReqs.lookup callID with
    | none => (m, out)
    | some req =>
      let m2 := { m with readReqs := mapDelete m.readReqs callID }
      let result := runDockerResult
        (ex req.container (buildReadCommand req.containerPath) none)
      if ¬ result.ok then (m2, out)
      else (m2, { out with output := result.stdout })
  else if tool = "write" then
    match m.writeReqs.lookup callID with
    | none => (m, out)
    | some _ =>
      ({ m with writeReqs := mapDelete m.writeReqs callID }, out)
  else if tool = "edit" then
    match m.editReqs.lookup callID with
    | none => (m, out)
    | some _ =>
      ({ m with editReqs := mapDelete m.editReqs callID }, out)
  else if tool = "list" then
    match m.listReqs.lookup callID with
    | none => (m, out)
    | some req =>
      let m2 := { m with listReqs := mapDelete m.listReqs callID }
      let result := runDockerResult
        (ex req.container (buildListCommand req.containerPath 200) none)
      if ¬ result.ok then (m2, out)
      else (m2, { out with output := result.stdout })
  else if tool = "grep" then
    match m.grepReqs.lookup callID with
    | none => (m, out)
    | some req =>
      let m2 := { m with grepReqs := mapDelete m.grepReqs callID }
      if buildGrepCommand req.pattern req.includeArg = "" then (m2, out)
      else
        let result := runDockerResult (ex req.container
          (buildGrepCommand req.pattern req.includeArg) (some req.containerRoot))
        if ¬ result.ok ∧ result.exitCode ≠ 1 then (m2, out)
        else if result.exitCode = 1 ∨ result.stdout = "" then
          (m2, { out with output := "" })
        else
          (m2, { out with output :=
            processGrepOutput cwd req.hostRoot req.containerRoot result.stdout })
  else if tool = "glob" then
    match m.globReqs.lookup callID with
    | none => (m, out)
    | some req =>
      let m2 := { m with globReqs := mapDelete m.globReqs callID }
      let result := runDockerResult (ex req.container
        (buildGlobCommand (some req.pattern) 100) (some req.containerRoot))
      if ¬ result.ok then (m2, out)
      else
        (m2, { out with output :=
          processGlobOutput cwd req.hostRoot req.containerRoot result.stdout })
  else (m, out)

/-! ## Spec-side definitions used for refinement comparisons -/

/-- The grep post-processing as the spec words it: split stdout on
newlines, drop blanks, split each line on the first two pipes into
`(filePath, lineNumber, rest)`, map absolute file paths container-to-host
and join relative ones under `hostRoot`, then re-join with pipes. -/
def specGrepProcess (cwd hostRoot containerRoot stdout : String) : String :=
  ⟨joinWithChar '\n' (((jsSplitC '\n' stdout.data).filter (fun l => ¬ l = [])).map
    (fun line =>
      match line.splitOn '|' with
      | fp :: ln :: rest =>
        (if isAbsoluteC fp then
            (mapContainerPathToHost cwd ⟨fp⟩ hostRoot containerRoot).data
          else pathJoinC hostRoot.data fp) ++ '|' :: (ln ++ '|' :: joinWithChar '|' rest)
      | _ => line))⟩

/-! ## Concrete fixtures used by counterexamples and witnesses -/

/-- A baseline enabled configuration with a pinned container name. -/
def cfgPinned : DindConfig :=
  { enabled := true
    toolNames := ["bash", "read", "write", "edit", "glob", "grep", "list"]
    dockerBinary := "docker"
    bypassPrefixes := ["docker "]
    stateFile := "/state.json"
    routing := { scope := ScopeMode.root, fallbackToHost := false }
    container :=
      { name := some "c"
        namePrefix := "opencode"
        image := "img:1"
        workdir := "/workspace"
        projectPath := none
        network := none
        env := []
        mounts := []
        command := ["sleep", "infinity"]
        autoCreate := false
        autoStart := true } }

def ctxFix : HookCtx :=
  { cwd := "/cwd", projectRoot := "/repo", projectId := "proj" }

/-- Oracle: identity scope, no stored binding, ensure always succeeds. -/
def oracleOk : HookOracle :=
  { scopeOf := fun s => s
    mappedOf := fun _ => none
    ensureOk := fun _ => true
    ensureErr := fun _ => none }

def emptyArgs : HookArgs :=
  ⟨none, none, none, none, none, none, none, none, none, none, none, none⟩

def outFix : HookOutput := { title := "t", output := "host result" }

def execSilent : ExecOracle := fun _ _ _ => ⟨"", "", 0⟩

/-! ## Claim C8 -/

theorem readState_version (f : FileContent) :
    (readState f).version = STATE_VERSION := by
  rcases f with _ | _ | st
  · rfl
  · rfl
  · rw [readState]
    by_cases h : st.version ≠ STATE_VERSION
    · rw [if_pos h]
      rfl
    · rw [if_neg h]
      exact Decidable.not_not.mp h

/-- C8: reading the routing state file returns a fresh empty state whenever
the file is missing, is not parseable JSON, or its version differs from the
running build's `STATE_VERSION`; the read itself never writes the file
back, and a matching version is returned as parsed. -/
theorem readState_defensive :
    (∀ f : FileContent, (readStateOp f).2 = f) ∧
    readState .missing = freshState ∧
    readState .corrupt = freshState ∧
    (∀ st : ContainerState, st.version ≠ STATE_VERSION →
      readState (.parsed st) = freshState) ∧
    (∀ st : ContainerState, st.version = STATE_VERSION →
      readState (.parsed st) = st) := by
  refine ⟨fun f => rfl, rfl, rfl, fun st h => by rw [readState, if_pos h],
    fun st h => by rw [readState, if_neg (fun hne => hne h)]⟩

/-- Witness: a version-2 file reads as fresh and is left on disk. -/
theorem readState_defensive_witness :
    ({ version := 2, sessions := [] } : ContainerState).version ≠ STATE_VERSION ∧
    readState (.parsed { version := 2, sessions := [] }) = freshState ∧
    (readStateOp (.parsed { version := 2, sessions := [] })).2 =
      .parsed { version := 2, sessions := [] } :=
  ⟨by decide, readState_defensive.2.2.2.1 _ (by decide),
    readState_defensive.1 _⟩

/-! ## Claim C6 -/

theorem readState_writeState (st : ContainerState)
    (h : st.version = STATE_VERSION) : readState (writeState st) = st := by
  rw [writeState, readState, if_neg (fun hne => hne h)]

/-- The state written back by a mutation: same (fresh) version, new
sessions. -/
def updState (f : FileContent) (ss : List (String × SessionEntry)) : ContainerState :=
  { version := (readState f).version, sessions := ss }

theorem readState_writeState_upd (f : FileContent)
    (ss : List (String × SessionEntry)) :
    readState (writeState (updState f ss)) = updState f ss :=
  readState_writeState _ (readState_version f)

theorem getMapped_write_upd (f : FileContent) (ss : List (String × SessionEntry))
    (s2 : String) :
    getMappedContainer (writeState (updState f ss)) s2 =
      orNull ((ss.lookup s2).map (fun e => e.container)) := by
  show orNull (((readState (writeState (updState f ss))).sessions.lookup s2).map
    (fun e => e.container)) = _
  rw [readState_writeState_upd]
  rfl

theorem getMapped_set_eq (f : FileContent) (s c : String) (t : Nat) (s2 : String) :
    getMappedContainer (setMappedContainer f s c t) s2 =
      orNull (((setEntry (readState f).sessions s (⟨c, t⟩ : SessionEntry)).lookup s2).map
        (fun e => e.container)) := by
  show getMappedContainer (writeState
    (updState f (setEntry (readState f).sessions s (⟨c, t⟩ : SessionEntry)))) s2 = _
  exact getMapped_write_upd f _ s2

theorem clearMappedContainer_eq (f : FileContent) (s : String) :
    clearMappedContainer f s =
      match getMappedContainer f s with
      | some c => (some c, writeState (updState f (eraseEntry (readState f).sessions s)))
      | none => (none, f) := rfl

/-- C6: after `set(s, C)` (C non-empty, per the data-model invariant) and
before any `clear(s)` or overwriting `set(s, C')`, `get(s)` returns `C` —
operations on other scopes do not disturb it, and every `get` re-reads the
persisted file, so the binding survives restarts; `clear(s)` returns the
container last bound to `s` (or `null` if none, leaving the file alone),
after which `get(s)` returns `null`. -/
theorem store_set_get_clear (f : FileContent) (s c : String) (t : Nat)
    (hc : c ≠ "") :
    getMappedContainer (setMappedContainer f s c t) s = some c ∧
    (∀ s2 c2 t2, s2 ≠ s → getMappedContainer
      (setMappedContainer (setMappedContainer f s c t) s2 c2 t2) s = some c) ∧
    (∀ s2, s2 ≠ s → getMappedContainer
      (clearMappedContainer (setMappedContainer f s c t) s2).2 s = some c) ∧
    (clearMappedContainer (setMappedContainer f s c t) s).1 = some c ∧
    getMappedContainer (clearMappedContainer (setMappedContainer f s c t) s).2 s = none ∧
    (getMappedContainer f s = none → clearMappedContainer f s = (none, f)) := by
  have hget : getMappedContainer (setMappedContainer f s c t) s = some c := by
    rw [getMapped_set_eq, lookup_setEntry_self]
    show orNull (some c) = some c
    rw [orNull, if_neg hc]
  refine ⟨hget, ?_, ?_, ?_, ?_, ?_⟩
  · intro s2 c2 t2 hne
    rw [getMapped_set_eq, lookup_setEntry_other _ _ _ _ (fun he => hne he.symm)]
    show getMappedContainer (setMappedContainer f s c t) s = some c
    exact hget
  · intro s2 hne
    rw [clearMappedContainer_eq]
    rcases hx : getMappedContainer (setMappedContainer f s c t) s2 with _ | x
    · exact hget
    · rw [getMapped_write_upd (setMappedContainer f s c t),
        lookup_eraseEntry_other _ _ _ (fun he => hne he.symm)]
      show getMappedContainer (setMappedContainer f s c t) s = some c
      exact hget
  · rw [clearMappedContainer_eq, hget]
  · rw [clearMappedContainer_eq, hget]
    show getMappedContainer (writeState _) s = none
    rw [getMapped_write_upd (setMappedContainer f s c t), lookup_eraseEntry_self]
    rfl
  · intro hnone
    rw [clearMappedContainer_eq, hnone]

/-- Witness for C6 at a concrete store history. -/
theorem store_set_get_clear_witness :
    ("oc-abcdef12-sess" : String) ≠ "" ∧
    getMappedContainer
      (setMappedContainer .missing "sess-ROOT-xyz" "oc-abcdef12-sess" 5)
      "sess-ROOT-xyz" = some "oc-abcdef12-sess" :=
  ⟨by decide,
    (store_set_get_clear .missing "sess-ROOT-xyz" "oc-abcdef12-sess" 5 (by decide)).1⟩

/-! ## Claim C4 -/

/-- A ten-deep acyclic parent chain `a0 → a1 → … → a10`. -/
def parentChainCE : String → Option String := fun s =>
  (([("a0", "a1"), ("a1", "a2"), ("a2", "a3"), ("a3", "a4"), ("a4", "a5"),
    ("a5", "a6"), ("a6", "a7"), ("a7", "a8"), ("a8", "a9"), ("a9", "a10")] :
      List (String × String)).lookup s)

/-- C4 is refuted at a chain of length 11: the resolver returns `"a10"`,
the parent of the last-visited id `"a9"` (not the last-visited id itself),
and the returned id is not cached while the visited ones are. -/
theorem session_resolver_counterexample :
    (getRootSessionID parentChainCE "a0" []).1 = "a10" ∧
    (walkRoot parentChainCE MAX_SESSION_CHAIN_DEPTH "a0" []).2.1.getLast? =
      some "a9" ∧
    ("a10" : String) ≠ "a9" ∧
    (getRootSessionID parentChainCE "a0" []).2.lookup "a10" = none ∧
    (getRootSessionID parentChainCE "a0" []).2.lookup "a9" = some "a10" := by
  decide

/-- C4 (amended): the resolver walks the parent chain for at most 10 steps
and returns the first ancestor with no parent or, if depth is exhausted,
the node reached by the tenth step — the parent of the last-visited id,
which itself is neither visited nor cached; every visited id (including
intermediates) is cached to the returned root; and under scope `session`
the live session id is returned with the cache untouched and the parent
oracle never consulted. -/
theorem session_scope_resolution (parent : String → Option String)
    (sid : String) (cache : List (String × String))
    (hmiss : orNull (cache.lookup sid) = none) :
    (getRootSessionID parent sid cache).1 =
      (walkRoot parent MAX_SESSION_CHAIN_DEPTH sid []).1 ∧
    (walkRoot parent MAX_SESSION_CHAIN_DEPTH sid []).2.1.length ≤ 10 ∧
    (∀ x ∈ (walkRoot parent MAX_SESSION_CHAIN_DEPTH sid []).2.1,
      (getRootSessionID parent sid cache).2.lookup x =
        some (walkRoot parent MAX_SESSION_CHAIN_DEPTH sid []).1) ∧
    ((walkRoot parent MAX_SESSION_CHAIN_DEPTH sid []).2.2 = false →
      parent (walkRoot parent MAX_SESSION_CHAIN_DEPTH sid []).1 = none ∧
      (walkRoot parent MAX_SESSION_CHAIN_DEPTH sid []).2.1.getLast? =
        some (walkRoot parent MAX_SESSION_CHAIN_DEPTH sid []).1) ∧
    ((walkRoot parent MAX_SESSION_CHAIN_DEPTH sid []).2.2 = true →
      (walkRoot parent MAX_SESSION_CHAIN_DEPTH sid []).2.1.length = 10 ∧
      ∃ last, (walkRoot parent MAX_SESSION_CHAIN_DEPTH sid []).2.1.getLast? =
        some last ∧ parent last =
          some (walkRoot parent MAX_SESSION_CHAIN_DEPTH sid []).1) ∧
    (∀ cfg : DindConfig, cfg.routing.scope = ScopeMode.session →
      ∀ parent2, resolveScopeId cfg parent2 sid cache = (sid, cache)) := by
  have hkey : getRootSessionID parent sid cache =
      ((walkRoot parent MAX_SESSION_CHAIN_DEPTH sid []).1,
        (walkRoot parent MAX_SESSION_CHAIN_DEPTH sid []).2.1.foldl
          (fun m s2 => insertCache m s2
            (walkRoot parent MAX_SESSION_CHAIN_DEPTH sid []).1) cache) := by
    rw [getRootSessionID, hmiss]
  refine ⟨by rw [hkey], ?_, ?_, ?_, ?_, ?_⟩
  · have hl := walkRoot_length parent MAX_SESSION_CHAIN_DEPTH sid []
    simpa [MAX_SESSION_CHAIN_DEPTH] using hl
  · intro x hx
    rw [hkey, lookup_foldl_insertCache, if_pos hx]
  · exact fun h => walkRoot_found parent MAX_SESSION_CHAIN_DEPTH sid [] h
  · intro h
    have h2 := walkRoot_exhausted parent MAX_SESSION_CHAIN_DEPTH sid [] h
    exact ⟨by simpa [MAX_SESSION_CHAIN_DEPTH] using h2.1,
      h2.2 (by rw [MAX_SESSION_CHAIN_DEPTH]; omega)⟩
  · intro cfg hscope parent2
    rw [resolveScopeId, if_pos hscope]

/-- Witness for C4 on the concrete eleven-node chain. -/
theorem session_scope_resolution_witness :
    orNull (([] : List (String × String)).lookup "a0") = none ∧
    (getRootSessionID parentChainCE "a0" []).1 =
      (walkRoot parentChainCE MAX_SESSION_CHAIN_DEPTH "a0" []).1 :=
  ⟨by decide, (session_scope_resolution parentChainCE "a0" [] (by decide)).1⟩

/-! ## Claim C2 -/

def mapsRead : Maps :=
  { emptyMaps with readReqs :=
    [("c1", ⟨"oc-abcdef12-sess", "/workspace/src/x.ts", "/home/u/p/src/x.ts"⟩)] }

/-- The container-side `cat` of a file holding `"AB\n"`. -/
def execAB : ExecOracle := fun _ _ _ => ⟨"AB\n", "", 0⟩

/-- C2 is refuted: `runDocker` trims the captured stdout, so a container
file holding `"AB\n"` produces `output.output = "AB"` — the trailing
newline is not preserved. -/
theorem read_output_counterexample :
    (postHook "" execAB "read" "c1" mapsRead outFix).2.output = "AB" ∧
    ("AB" : String) ≠ "AB\n" := by decide

/-- C2 (amended): for every successful read post-hook with a staged
PendingCall, `output.output` is the captured stdout of the container-side
read command as `runDocker` captures it, i.e. trimmed of leading and
trailing whitespace; in particular `"AB\n"` becomes `"AB"`. -/
theorem read_output_is_trimmed_stdout (cwd : String) (ex : ExecOracle)
    (cid : String) (m : Maps) (out : HookOutput) (req : ReadReq)
    (hreq : m.readReqs.lookup cid = some req)
    (hok : (ex req.container (buildReadCommand req.containerPath) none).exitCode = 0) :
    (postHook cwd ex "read" cid m out).2.output =
      jsTrim (ex req.container (buildReadCommand req.containerPath) none).stdout := by
  simp [postHook, hreq, runDockerResult, hok]

/-- Witness for C2 at the read-round-trip scenario. -/
theorem read_output_witness :
    mapsRead.readReqs.lookup "c1" =
      some ⟨"oc-abcdef12-sess", "/workspace/src/x.ts", "/home/u/p/src/x.ts"⟩ ∧
    (postHook "" execAB "read" "c1" mapsRead outFix).2.output =
      jsTrim (execAB "oc-abcdef12-sess"
        (buildReadCommand "/workspace/src/x.ts") none).stdout :=
  ⟨by decide, read_output_is_trimmed_stdout "" execAB "c1" mapsRead outFix
    ⟨"oc-abcdef12-sess", "/workspace/src/x.ts", "/home/u/p/src/x.ts"⟩
    (by decide) (by decide)⟩

/-! ## Claim C7 -/

def mapsGrep : Maps :=
  { emptyMaps with grepReqs :=
    [("g1", ⟨"c", "/home/u/p", "/workspace", "TODO", none⟩)] }

def execGrepScenario : ExecOracle := fun _ _ _ =>
  ⟨"src/a.ts|42|  TODO: foo\nsrc/b.ts|7| TODO: bar", "", 0⟩

def execGrepExitOne : ExecOracle := fun _ _ _ => ⟨"a|1|x", "", 1⟩

/-- C7 is refuted at exit code 1: the hook forces `output.output` to the
empty string rather than processing stdout as described. -/
theorem grep_exit1_counterexample :
    (postHook "" execGrepExitOne "grep" "g1" mapsGrep outFix).2.output = "" ∧
    specGrepProcess "" "/home/u/p" "/workspace" "a|1|x" = "/home/u/p/a|1|x" ∧
    ("" : String) ≠ "/home/u/p/a|1|x" := by decide

/-- C7 (amended): with a staged grep call, exit code 1 (or empty trimmed
stdout) sets `output.output` to the empty string; any exit code other than
0 and 1 leaves the host result unchanged; exit code 0 with non-empty
stdout applies the source's processing (per-line trim, remap, re-join with
empty components dropped), which on the spec's scenario-4 input agrees
with the spec-worded processing. -/
theorem grep_post_processing (cwd : String) (cid : String) (m : Maps)
    (out : HookOutput) (req : GrepReq)
    (hreq : m.grepReqs.lookup cid = some req)
    (hcmd : buildGrepCommand req.pattern req.includeArg ≠ "") :
    (∀ ex : ExecOracle,
      (ex req.container (buildGrepCommand req.pattern req.includeArg)
        (some req.containerRoot)).exitCode = 1 →
      (postHook cwd ex "grep" cid m out).2.output = "") ∧
    (∀ ex : ExecOracle,
      (ex req.container (buildGrepCommand req.pattern req.includeArg)
        (some req.containerRoot)).exitCode ≠ 0 →
      (ex req.container (buildGrepCommand req.pattern req.includeArg)
        (some req.containerRoot)).exitCode ≠ 1 →
      (postHook cwd ex "grep" cid m out).2.output = out.output) ∧
    (∀ ex : ExecOracle,
      (ex req.container (buildGrepCommand req.pattern req.includeArg)
        (some req.containerRoot)).exitCode = 0 →
      jsTrim (ex req.container (buildGrepCommand req.pattern req.includeArg)
        (some req.containerRoot)).stdout ≠ "" →
      (postHook cwd ex "grep" cid m out).2.output =
        processGrepOutput cwd req.hostRoot req.containerRoot
          (jsTrim (ex req.container (buildGrepCommand req.pattern req.includeArg)
            (some req.containerRoot)).stdout)) ∧
    ((postHook "" execGrepScenario "grep" "g1" mapsGrep outFix).2.output =
      "/home/u/p/src/a.ts|42|  TODO: foo\n/home/u/p/src/b.ts|7| TODO: bar") ∧
    (specGrepProcess "" "/home/u/p" "/workspace"
      "src/a.ts|42|  TODO: foo\nsrc/b.ts|7| TODO: bar" =
      "/home/u/p/src/a.ts|42|  TODO: foo\n/home/u/p/src/b.ts|7| TODO: bar") := by
  refine ⟨?_, ?_, ?_, by decide, by decide⟩
  · intro ex hec
    simp [postHook, hreq, hcmd, runDockerResult, hec]
  · intro ex hec0 hec1
    simp [postHook, hreq, hcmd, runDockerResult, hec0, hec1]
  · intro ex hec hstd
    simp [postHook, hreq, hcmd, runDockerResult, hec, hstd]

/-- Witness for C7 at the scenario-4 fixture. -/
theorem grep_post_processing_witness :
    mapsGrep.grepReqs.lookup "g1" =
      some ⟨"c", "/home/u/p", "/workspace", "TODO", none⟩ ∧
    (postHook "" execGrepScenario "grep" "g1" mapsGrep outFix).2.output =
      "/home/u/p/src/a.ts|42|  TODO: foo\n/home/u/p/src/b.ts|7| TODO: bar" :=
  ⟨by decide, (grep_post_processing "" "g1" mapsGrep outFix
    ⟨"c", "/home/u/p", "/workspace", "TODO", none⟩
    (by decide) (by decide)).2.2.2.1⟩

/-! ## Claim C1 -/

def argsReadOutside : HookArgs := { emptyArgs with filePath := some "/outside/x.ts" }

/-- C1 is refuted for the read family: a filePath resolving outside the
project root is not rejected — the hook stages a PendingCall whose
container path is clamped to the container root. -/
theorem pre_read_outside_counterexample :
    resolveHostPathInProject "/cwd" "/repo" "/outside/x.ts" = none ∧
    (preHook cfgPinned ctxFix oracleOk ⟨"read", "s1", some "c1"⟩
      argsReadOutside).staged = some (.readReq "c" "/workspace" "/outside/x.ts") := by
  decide

/-- C1 (amended): for the write, edit, list and grep families, a target
path that resolves outside the project root makes the pre-hook return
without staging any PendingCall and without rewriting args; the read and
glob families perform no such check (an outside read path is clamped and
still staged, per the counterexample), and the shell family clamps the cwd
instead. -/
theorem pre_outside_paths_skip (cfg : DindConfig) (ctx : HookCtx) (o : HookOracle)
    (sid cid : String) (args : HookArgs) :
    (∀ p, pickFirstStringArg args ["filePath", "path"] = some p →
      resolveHostPathInProject ctx.cwd ctx.projectRoot p = none →
      preHook cfg ctx o ⟨"write", sid, some cid⟩ args = skipResult args) ∧
    (∀ p, pickFirstStringArg args ["filePath", "path"] = some p →
      resolveHostPathInProject ctx.cwd ctx.projectRoot p = none →
      preHook cfg ctx o ⟨"edit", sid, some cid⟩ args = skipResult args) ∧
    (resolveHostPathInProject ctx.cwd ctx.projectRoot
        ((pickFirstStringArg args ["path", "dir", "directory"]).getD
          ctx.projectRoot) = none →
      preHook cfg ctx o ⟨"list", sid, some cid⟩ args = skipResult args) ∧
    (∀ pat, pickFirstStringArg args ["pattern"] = some pat →
      resolveHostPathInProject ctx.cwd ctx.projectRoot
        ((pickFirstStringArg args ["path", "dir", "directory"]).getD
          ctx.projectRoot) = none →
      preHook cfg ctx o ⟨"grep", sid, some cid⟩ args = skipResult args) := by
  refine ⟨?_, ?_, ?_, ?_⟩
  · intro p hp hout
    by_cases hcid : cid = "" <;> by_cases hsid : sid = "" <;>
      simp [preHook, hp, hout, orNull, hcid, hsid]
  · intro p hp hout
    by_cases hcid : cid = "" <;> by_cases hsid : sid = "" <;>
      simp [preHook, hp, hout, orNull, hcid, hsid]
  · intro hout
    by_cases hcid : cid = "" <;> by_cases hsid : sid = "" <;>
      simp [preHook, hout, orNull, hcid, hsid]
  · intro pat hp hout
    by_cases hcid : cid = "" <;> by_cases hsid : sid = "" <;>
      simp [preHook, hp, hout, orNull, hcid, hsid]

/-- Witness for C1 at a write outside the project root. -/
theorem pre_outside_paths_skip_witness :
    pickFirstStringArg argsReadOutside ["filePath", "path"] = some "/outside/x.ts" ∧
    resolveHostPathInProject "/cwd" "/repo" "/outside/x.ts" = none ∧
    preHook cfgPinned ctxFix oracleOk ⟨"write", "s1", some "c1"⟩ argsReadOutside =
      skipResult argsReadOutside :=
  ⟨by decide, by decide,
    (pre_outside_paths_skip cfgPinned ctxFix oracleOk "s1" "c1" argsReadOutside).1
      "/outside/x.ts" (by decide) (by decide)⟩

/-! ## Claim C10 -/

/-- Flip only `routing.fallbackToHost`. -/
def setFallback (cfg : DindConfig) (b : Bool) : DindConfig :=
  { cfg with routing := { cfg.routing with fallbackToHost := b } }

theorem acquire_fail_shape (cfg : DindConfig) (ctx : HookCtx) (o : HookOracle)
    (sid : String) (hfail : ∀ n, o.ensureOk n = false) :
    acquireContainer cfg ctx o sid = .noContainer ∨
    ∃ s n e, acquireContainer cfg ctx o sid = .ensureFailed s n e := by
  rw [acquireContainer]
  rcases orNull (resolveContainerName cfg ctx o (o.scopeOf sid)) with _ | nm
  · exact Or.inl rfl
  · right
    refine ⟨o.scopeOf sid, nm, hookEnsureInput cfg ctx (o.scopeOf sid) nm, ?_⟩
    simp [hfail nm]

theorem acquire_setFallback (cfg : DindConfig) (b : Bool) (ctx : HookCtx)
    (o : HookOracle) (sid : String) :
    acquireContainer (setFallback cfg b) ctx o sid =
      acquireContainer cfg ctx o sid := rfl

theorem setFallback_enabled (cfg : DindConfig) (b : Bool) :
    (setFallback cfg b).enabled = cfg.enabled := rfl

theorem setFallback_toolNames (cfg : DindConfig) (b : Bool) :
    (setFallback cfg b).toolNames = cfg.toolNames := rfl

theorem setFallback_container (cfg : DindConfig) (b : Bool) :
    (setFallback cfg b).container = cfg.container := rfl

set_option maxHeartbeats 1600000 in
/-- C10: for every intercepted tool other than the shell tool, when
`ensureContainerRunning` fails the pre-hook stages nothing, performs no
binding write and leaves args unchanged, and the complete hook result is
independent of `routing.fallbackToHost`: two runs identical except for
that flag coincide. -/
theorem ensure_failure_host_identical (cfg : DindConfig) (b1 b2 : Bool)
    (ctx : HookCtx) (o : HookOracle) (inp : PreInput) (args : HookArgs)
    (htool : inp.tool ∈
      (["read", "write", "edit", "glob", "list", "grep"] : List String))
    (hfail : ∀ n, o.ensureOk n = false) :
    (preHook (setFallback cfg b1) ctx o inp args).args = args ∧
    (preHook (setFallback cfg b1) ctx o inp args).staged = none ∧
    (preHook (setFallback cfg b1) ctx o inp args).binding = none ∧
    preHook (setFallback cfg b1) ctx o inp args =
      preHook (setFallback cfg b2) ctx o inp args := by
  rcases inp with ⟨tool, sid, cid⟩
  simp only [List.mem_cons, List.not_mem_nil, or_false] at htool
  rcases acquire_fail_shape cfg ctx o sid hfail with hA | ⟨s0, n0, e0, hA⟩ <;>
  rcases htool with h | h | h | h | h | h <;>
  subst h <;>
  unfold preHook <;>
  simp only [setFallback_enabled, setFallback_toolNames, setFallback_container,
    acquire_setFallback, String.reduceEq, reduceIte, or_self, or_false,
    false_or, true_or, or_true, if_true, if_false] <;>
  refine ⟨?_, ?_, ?_, ?_⟩ <;>
  (repeat' split) <;>
  first
    | rfl
    | simp_all only [hA, reduceCtorEq]


/-- Oracle whose `ensureContainerRunning` always fails. -/
def oracleDown : HookOracle :=
  { scopeOf := fun s => s
    mappedOf := fun _ => none
    ensureOk := fun _ => false
    ensureErr := fun _ => none }

/-- Witness for C10: a read call against a pinned container whose ensure
fails, compared across both `fallbackToHost` settings. -/
theorem ensure_failure_host_identical_witness :
    ("read" : String) ∈
      (["read", "write", "edit", "glob", "list", "grep"] : List String) ∧
    (preHook (setFallback cfgPinned true) ctxFix oracleDown
        ⟨"read", "s1", some "c1"⟩ emptyArgs).args = emptyArgs ∧
    (preHook (setFallback cfgPinned true) ctxFix oracleDown
        ⟨"read", "s1", some "c1"⟩ emptyArgs).staged = none ∧
    (preHook (setFallback cfgPinned true) ctxFix oracleDown
        ⟨"read", "s1", some "c1"⟩ emptyArgs).binding = none ∧
    preHook (setFallback cfgPinned true) ctxFix oracleDown
        ⟨"read", "s1", some "c1"⟩ emptyArgs =
      preHook (setFallback cfgPinned false) ctxFix oracleDown
        ⟨"read", "s1", some "c1"⟩ emptyArgs :=
  ⟨by decide,
    ensure_failure_host_identical cfgPinned true false ctxFix oracleDown
      ⟨"read", "s1", some "c1"⟩ emptyArgs (by decide) (fun _ => rfl)⟩

/-! ## Claim C9 -/

/-- A hook invocation: either a `tool.execute.before` call or a
`tool.execute.after` call. -/
inductive HookEvent
  | pre (inp : PreInput) (args : HookArgs)
  | post (tool callID : String) (out : HookOutput)

/-- The effect of one hook invocation on the pending-call maps. -/
def stepEvent (cfg : DindConfig) (ctx : HookCtx) (o : HookOracle)
    (cwd : String) (ex : ExecOracle) (m : Maps) : HookEvent → Maps
  | .pre inp args => applyStage inp.callID (preHook cfg ctx o inp args).staged m
  | .post tool callID out => (postHook cwd ex tool callID m out).1

/-- The pending-call maps after a sequence of hook invocations. -/
def runEvents (cfg : DindConfig) (ctx : HookCtx) (o : HookOracle)
    (cwd : String) (ex : ExecOracle) (m : Maps) : List HookEvent → Maps
  | [] => m
  | e :: r => runEvents cfg ctx o cwd ex (stepEvent cfg ctx o cwd ex m e) r

theorem preHook_disabled (cfg : DindConfig) (ctx : HookCtx) (o : HookOracle)
    (inp : PreInput) (args : HookArgs) (h : cfg.enabled = false) :
    preHook cfg ctx o inp args = skipResult args := by
  unfold preHook
  rw [h]
  simp

theorem applyStage_none (cid : Option String) (m : Maps) :
    applyStage cid none m = m := by
  cases cid <;> rfl

theorem postHook_emptyMaps (cwd : String) (ex : ExecOracle)
    (tool callID : String) (out : HookOutput) :
    postHook cwd ex tool callID emptyMaps out = (emptyMaps, out) := by
  unfold postHook
  split_ifs <;> rfl

set_option maxHeartbeats 800000 in
/-- C9: with `enabled = false` every pre-hook call is an identity (args
unchanged, nothing staged), the pending-call maps stay empty across every
sequence of hook invocations, and consequently every post-hook call
leaves its output record untouched. -/
theorem disabled_hooks_never_mutate (cfg : DindConfig) (ctx : HookCtx)
    (o : HookOracle) (cwd : String) (ex : ExecOracle)
    (h : cfg.enabled = false) :
    (∀ inp args, preHook cfg ctx o inp args = skipResult args) ∧
    (∀ evs, runEvents cfg ctx o cwd ex emptyMaps evs = emptyMaps) ∧
    (∀ evs tool callID out,
      postHook cwd ex tool callID (runEvents cfg ctx o cwd ex emptyMaps evs)
        out = (runEvents cfg ctx o cwd ex emptyMaps evs, out)) := by
  have hpre : ∀ inp args, preHook cfg ctx o inp args = skipResult args :=
    fun inp args => preHook_disabled cfg ctx o inp args h
  have hrun : ∀ evs, runEvents cfg ctx o cwd ex emptyMaps evs = emptyMaps := by
    intro evs
    induction evs with
    | nil => rfl
    | cons e r ih =>
      cases e with
      | pre inp args =>
        rw [runEvents]
        rw [show stepEvent cfg ctx o cwd ex emptyMaps (.pre inp args) =
          applyStage inp.callID (preHook cfg ctx o inp args).staged emptyMaps
          from rfl]
        rw [hpre inp args]
        rw [show (skipResult args).staged = none from rfl]
        rw [applyStage_none]
        exact ih
      | post tool callID out =>
        rw [runEvents]
        rw [show stepEvent cfg ctx o cwd ex emptyMaps (.post tool callID out) =
          (postHook cwd ex tool callID emptyMaps out).1 from rfl]
        rw [postHook_emptyMaps]
        exact ih
  refine ⟨hpre, hrun, ?_⟩
  intro evs tool callID out
  rw [hrun evs]
  exact postHook_emptyMaps cwd ex tool callID out

/-- The pinned configuration with routing disabled. -/
def cfgDisabled : DindConfig := { cfgPinned with enabled := false }

/-- Witness for C9 at the disabled pinned configuration, over a two-event
trace. -/
theorem disabled_hooks_never_mutate_witness :
    preHook cfgDisabled ctxFix oracleOk ⟨"read", "s1", some "c1"⟩ emptyArgs =
      skipResult emptyArgs ∧
    runEvents cfgDisabled ctxFix oracleOk "/cwd" execSilent emptyMaps
      [.pre ⟨"read", "s1", some "c1"⟩ emptyArgs, .post "read" "c1" outFix] =
      emptyMaps ∧
    postHook "/cwd" execSilent "read" "c1"
      (runEvents cfgDisabled ctxFix oracleOk "/cwd" execSilent emptyMaps
        [.pre ⟨"read", "s1", some "c1"⟩ emptyArgs]) outFix =
      (runEvents cfgDisabled ctxFix oracleOk "/cwd" execSilent emptyMaps
        [.pre ⟨"read", "s1", some "c1"⟩ emptyArgs], outFix) :=
  ⟨(disabled_hooks_never_mutate cfgDisabled ctxFix oracleOk "/cwd" execSilent
      rfl).1 ⟨"read", "s1", some "c1"⟩ emptyArgs,
    (disabled_hooks_never_mutate cfgDisabled ctxFix oracleOk "/cwd" execSilent
      rfl).2.1 _,
    (disabled_hooks_never_mutate cfgDisabled ctxFix oracleOk "/cwd" execSilent
      rfl).2.2 _ "read" "c1" outFix⟩

/-! ## Claim C3 -/

theorem infix_flatten_of_mem {A B : Type} (f : B → List A) {x : B} {l : List B}
    (h : x ∈ l) : List.IsInfix (f x) ((l.map f).flatten) := by
  obtain ⟨s, t, rfl⟩ := List.append_of_mem h
  refine ⟨(s.map f).flatten, (t.map f).flatten, ?_⟩
  simp

/-- C3 counterexample: the attached labels are `opencode.project` and
`opencode.scope`, not `owner.project`/`owner.scope`; and the create tool
invoked with an explicit name and no session scope creates a container
with no labels at all, which the list tool's label filter cannot match. -/
theorem container_labels_counterexample :
    (buildContainerLabels "proj" "scope1").lookup "owner.project" = none ∧
    (buildContainerLabels "proj" "scope1").lookup "owner.scope" = none ∧
    createToolPlan cfgPinned "proj" none (some "custom") =
      some ("custom", none) ∧
    ("--label" : String) ∉ createContainerArgs cfgPinned
      { name := "custom", image := "img:1", workdir := "/workspace",
        projectPath := none, network := none, env := [], mounts := [],
        command := none, labels := none } := by decide

/-- C3 (amended): the labels are `opencode.project=<projectId>` and
`opencode.scope=<scopeId>`; whenever a label list is passed to
`createContainer` every pair becomes a `--label k=v` argument; the list
tool filters on `label=opencode.project=<projectId>`; both hook-side
container creations (the `ensureContainerRunning` input of the ok and of
the failed acquisition) carry the labels; and the create tool attaches
them whenever a session scope is available.  (With an explicit name and
no session the create tool attaches none — see the counterexample.) -/
theorem container_labels_attached :
    (∀ pid sid, buildContainerLabels pid sid =
      [("opencode.project", pid), ("opencode.scope", sid)]) ∧
    (∀ cfg input lbls k v,
      input.labels = some lbls → (k, v) ∈ lbls →
      List.IsInfix ["--label", k ++ "=" ++ v] (createContainerArgs cfg input)) ∧
    (∀ all pid, ("--filter" : String) ∈ createContainerListArgs all pid ∧
      ("label=opencode.project=" ++ pid) ∈ createContainerListArgs all pid) ∧
    (∀ cfg ctx o sid s n e b,
      acquireContainer cfg ctx o sid = Acquire.ok s n e b →
      e.labels = buildContainerLabels ctx.projectId (o.scopeOf sid)) ∧
    (∀ cfg ctx o sid s n e,
      acquireContainer cfg ctx o sid = Acquire.ensureFailed s n e →
      e.labels = buildContainerLabels ctx.projectId (o.scopeOf sid)) ∧
    (∀ cfg pid sid argName nm lbls,
      createToolPlan cfg pid (some sid) argName = some (nm, lbls) →
      lbls = some (buildContainerLabels pid sid)) := by
  refine ⟨fun pid sid => rfl, ?_, ?_, ?_, ?_, ?_⟩
  · intro cfg input lbls k v hl hm
    have h1 : List.IsInfix ["--label", k ++ "=" ++ v]
        ((lbls.map (fun kv => ["--label", kv.1 ++ "=" ++ kv.2])).flatten) :=
      infix_flatten_of_mem (fun kv : String × String =>
        ["--label", kv.1 ++ "=" ++ kv.2]) hm
    refine h1.trans ⟨["run", "-d", "--name", input.name, "--workdir",
        input.workdir] ++
        (match input.network with | some n => ["--network", n] | none => []),
      ((mergeEnv cfg.container.env input.env).map
        (fun kv => ["-e", kv.1 ++ "=" ++ kv.2])).flatten ++
        (match input.projectPath with
          | some pp => ["-v", pp ++ ":" ++ input.workdir]
          | none => []) ++
        (input.mounts.map (fun m => ["-v", m])).flatten ++
        [input.image] ++ input.command.getD cfg.container.command, ?_⟩
    unfold createContainerArgs
    rw [hl]
    simp [List.append_assoc]
  · intro all pid
    cases all <;> simp [createContainerListArgs]
  · intro cfg ctx o sid s n e b h
    unfold acquireContainer at h
    rcases horn : orNull (resolveContainerName cfg ctx o (o.scopeOf sid))
      with _ | nm
    · rw [horn] at h
      exact absurd h (by simp)
    · rw [horn] at h
      by_cases he : o.ensureOk nm = true
      · simp only [he, if_true] at h
        cases h
        rfl
      · simp only [he, if_false] at h
        exact absurd h (by simp)
  · intro cfg ctx o sid s n e h
    unfold acquireContainer at h
    rcases horn : orNull (resolveContainerName cfg ctx o (o.scopeOf sid))
      with _ | nm
    · rw [horn] at h
      exact absurd h (by simp)
    · rw [horn] at h
      by_cases he : o.ensureOk nm = true
      · simp only [he, if_true] at h
        exact absurd h (by simp)
      · simp only [he, if_false] at h
        cases h
        rfl
  · intro cfg pid sid argName nm lbls h
    unfold createToolPlan at h
    rcases han : orNull argName with _ | n2
    · rw [han] at h
      cases h
      rfl
    · rw [han] at h
      cases h
      rfl

/-- A create-tool input carrying the session labels. -/
def cInputFix : CreateInput :=
  { name := "custom", image := "img:1", workdir := "/workspace",
    projectPath := none, network := none, env := [], mounts := [],
    command := none, labels := some (buildContainerLabels "proj" "s1") }

/-- Witness for C3 at the pinned configuration and session `s1`. -/
theorem container_labels_witness :
    buildContainerLabels "proj" "s1" =
      [("opencode.project", "proj"), ("opencode.scope", "s1")] ∧
    List.IsInfix ["--label", "opencode.project" ++ "=" ++ "proj"]
      (createContainerArgs cfgPinned cInputFix) ∧
    ("label=opencode.project=" ++ "proj") ∈
      createContainerListArgs false "proj" :=
  ⟨container_labels_attached.1 "proj" "s1",
    container_labels_attached.2.1 cfgPinned cInputFix
      (buildContainerLabels "proj" "s1") "opencode.project" "proj" rfl
      (by decide),
    (container_labels_attached.2.2.1 false "proj").2⟩

/-- C5 counterexample: with the non-normalized absolute container root
`/x/..` the mapped path `/a` is neither the root nor prefixed by it, and
with the container root `/` the round trip of `/h/x` (strictly inside the
host root `/h`) lands on `/h` instead. -/
theorem mapper_counterexample :
    mapHostPathToContainer "" "/h/a" "/h" "/x/.." = "/a" ∧
    ¬(mapHostPathToContainer "" "/h/a" "/h" "/x/.." = "/x/.." ∨
      properDirPrefix "/x/.." (mapHostPathToContainer "" "/h/a" "/h" "/x/..")) ∧
    mapHostPathToContainer "" "/h/x" "/h" "/" = "/x" ∧
    mapContainerPathToHost "" (mapHostPathToContainer "" "/h/x" "/h" "/")
      "/h" "/" = "/h" ∧
    ("/h" : String) ≠ "/h/x" := by
  refine ⟨by decide, ?_, by decide, by decide, by decide⟩
  intro h
  rcases h with h | h
  · exact absurd h (by decide)
  · unfold properDirPrefix at h
    revert h
    decide

/-- Witness for C5 at `/repo/src/a.ts` under roots `/repo` and
`/workspace`. -/
theorem mapper_witness :
    isAbsoluteC ("/repo" : String).data = true ∧
    ("/workspace" : String).data = resolveAbsC ("/workspace" : String).data ∧
    (mapHostPathToContainer "/cwd" "/repo/src/a.ts" "/repo" "/workspace" =
        "/workspace" ∨
      properDirPrefix "/workspace"
        (mapHostPathToContainer "/cwd" "/repo/src/a.ts" "/repo" "/workspace")) ∧
    mapContainerPathToHost "/cwd"
      (mapHostPathToContainer "/cwd" "/repo/src/a.ts" "/repo" "/workspace")
      "/repo" "/workspace" = "/repo/src/a.ts" :=
  ⟨by decide, by decide,
    (mapper_image_and_inverse "/cwd" "/repo/src/a.ts" "/repo" "/workspace"
      (by decide) (by decide)).1,
    (mapper_image_and_inverse "/cwd" "/repo/src/a.ts" "/repo" "/workspace"
      (by decide) (by decide)).2 (by decide) (by decide) (by decide)⟩

end DindRouter
